import Mathlib

/-!
# CWRFID: framed read of an RFID tag over a serial line

A shallow embedding of `cw_rfid_read_once` and `cw_rfid_read` (CWRFID.cpp).

The two functions talk to the outside through `serial->available()`,
`serial->read()`, `millis()` and `alloca`.  The outside is a `World`: a script of
what every coming poll of the serial line sees, a script of what every coming
`millis()` call reads, and the indeterminate contents of the stack blocks that
`alloca` hands out.  The busy-wait loop of `cw_rfid_read_once` need not
terminate, so it is run with a bound (`fuel`) on the number of iterations and
yields `none` when the bound is reached before the function returns.

`unsigned long` is 32 bits wide on the boards the library is written for;
`int` values (`id_len`, `bytes_read`, the bytes read and the return codes) are
kept unbounded, `id_len` being a natural number.
-/

namespace CWRFID

/-! ## Machine arithmetic -/

/-- Number of values of an `unsigned long`. -/
def ULONG_MOD : Nat := 2 ^ 32

/-- Sum of two `unsigned long` values. -/
def uadd (a b : Nat) : Nat := (a + b) % ULONG_MOD

/-- Difference of two `unsigned long` values. -/
def usub (a b : Nat) : Nat := (a + ULONG_MOD - b % ULONG_MOD) % ULONG_MOD

/-! ## The outside world -/

/-- An `int` array, addressed by index. -/
abbrev Buffer := Nat → Int

/-- Assignment `buffer[i] = v`. -/
def Buffer.set (buffer : Buffer) (i : Nat) (v : Int) : Buffer :=
  fun k => if k = i then v else buffer k

/-- Everything the two functions reach through the serial line, the clock and
the stack.  `line k` is what the `k`-th coming poll sees: `none` when no byte is
waiting, `some v` when the byte `v` is waiting.  `clock k` is the time shown at
the `k`-th coming `millis()` call.  `stack k` is the content of the `k`-th coming
`alloca` block.  `polls`, `consumed` and `ticks` count the polls made, the bytes
taken off the line and the clock readings taken. -/
structure World where
  line : Nat → Option Int
  clock : Nat → Nat
  stack : Nat → Buffer
  polls : Nat
  consumed : Nat
  ticks : Nat

/-- The value the `k`-th coming `millis()` call returns. -/
def World.reading (w : World) (k : Nat) : Nat := w.clock k % ULONG_MOD

/-- Arduino `millis()`: the current reading of the millisecond clock, an
`unsigned long`. -/
def millis (w : World) : Nat × World :=
  (w.clock 0 % ULONG_MOD,
   { w with clock := fun k => w.clock (k + 1), ticks := w.ticks + 1 })

/-- The call `serial->available()`: positive when a byte is waiting.  A poll that finds
the line empty is over; a poll that finds a byte leaves it for `read`. -/
def available (w : World) : Int × World :=
  match w.line 0 with
  | some _ => (1, { w with polls := w.polls + 1 })
  | none => (0, { w with line := fun k => w.line (k + 1), polls := w.polls + 1 })

/-- The call `serial->read()`: takes the waiting byte off the line (`-1` when there is
none). -/
def read (w : World) : Int × World :=
  match w.line 0 with
  | some v => (v, { w with line := fun k => w.line (k + 1), consumed := w.consumed + 1 })
  | none => (-1, w)

/-- The call `alloca`: a fresh stack block with indeterminate content. -/
def alloca (w : World) : Buffer × World :=
  (w.stack 0, { w with stack := fun k => w.stack (k + 1) })

/-- The test `memcmp(a, b, sizeof(int)*n) == 0`. -/
def memcmp_zero (a b : Buffer) (n : Nat) : Bool :=
  (List.range n).all fun i => decide (a i = b i)

/-- The call `memcpy(dst, src, sizeof(int)*n)`. -/
def memcpy (dst src : Buffer) (n : Nat) : Buffer :=
  fun k => if k < n then src k else dst k

/-! ## `cw_rfid_read_once` -/

/-- Local variables of `cw_rfid_read_once` together with the world. -/
structure Locals where
  start_found : Bool
  bytes_read : Nat
  v : Int
  buffer : Buffer
  serial : World

/-- How control leaves one pass through the body of the `while` loop. -/
inductive Flow where
  | next (s : Locals)
  | brk (s : Locals)
  | ret (code : Int) (s : Locals)

/-- How `cw_rfid_read_once` was left: by a `return` inside the loop, by the
`break`, or by the loop condition turning false. -/
inductive Exit where
  | returned
  | broke
  | guard
  deriving DecidableEq, Repr

/-- What a call leaves behind: the returned `int`, the buffer, the world, and how
the reading that produced the code was left. -/
structure Outcome where
  ret : Int
  buffer : Buffer
  serial : World
  exit : Exit

/-- One pass through the body of the `while` loop (CWRFID.cpp lines 32-60). -/
def loop_body (id_len wait started_at : Nat) (s : Locals) : Flow :=
  let (n, serial) := available s.serial
  if n > 0 then
    let (v, serial) := read serial
    if !s.start_found then
      if v ≠ 0x0A then
        Flow.brk { s with v := v, serial := serial }
      else
        Flow.next { s with v := v, serial := serial, start_found := true }
    else
      if s.bytes_read = id_len then
        if v = 0x0D then
          Flow.ret s.bytes_read { s with v := v, serial := serial }
        else
          Flow.ret (-1) { s with v := v, serial := serial }
      else
        Flow.next { s with v := v, serial := serial,
                           buffer := s.buffer.set s.bytes_read v,
                           bytes_read := s.bytes_read + 1 }
  else
    if wait ≠ 0 then
      let (now, serial) := millis serial
      if now > uadd started_at wait then
        Flow.ret (-3) { s with serial := serial }
      else
        Flow.next { s with serial := serial }
    else
      Flow.next { s with serial := serial }

/-- The `while` loop and the `return -2` after it (lines 31-62), at most `fuel`
passes. -/
def loop (id_len wait started_at : Nat) : Nat → Locals → Option Outcome
  | 0, _ => none
  | fuel + 1, s =>
    if s.bytes_read < id_len + 1 then
      match loop_body id_len wait started_at s with
      | Flow.next s' => loop id_len wait started_at fuel s'
      | Flow.brk s' => some ⟨-2, s'.buffer, s'.serial, Exit.broke⟩
      | Flow.ret code s' => some ⟨code, s'.buffer, s'.serial, Exit.returned⟩
    else
      some ⟨-2, s.buffer, s.serial, Exit.guard⟩

/-- The function `cw_rfid_read_once( buffer, id_len, wait, serial )`, its loop
allowed `fuel` passes. -/
def cw_rfid_read_once (fuel : Nat) (buffer : Buffer) (id_len wait : Nat) (serial : World) :
    Option Outcome :=
  let (started_at, serial) := millis serial
  loop id_len wait started_at fuel ⟨false, 0, 0, buffer, serial⟩

/-! ## `cw_rfid_read` -/

/-- Where `cw_rfid_read` stands after line 82: it has returned, or it is about
to read the tag again with `new_wait`. -/
inductive Phase where
  | done (r : Outcome)
  | again (buffer1 buffer2 : Buffer) (new_wait : Nat) (serial : World)

/-- The `wait` argument of the second reading, when one is due. -/
def Phase.second_wait : Phase → Option Nat
  | Phase.done _ => none
  | Phase.again _ _ new_wait _ => some new_wait

/-- Lines 66-82 of `cw_rfid_read`: the first reading and the time left. -/
def cw_rfid_read_first (fuel : Nat) (buffer : Buffer) (id_len wait : Nat) (serial : World) :
    Option Phase :=
  let (buffer1, serial) := alloca serial
  let (buffer2, serial) := alloca serial
  let (started_at, serial) := millis serial
  match cw_rfid_read_once fuel buffer1 id_len wait serial with
  | none => none
  | some r1 =>
    if (id_len : Int) ≠ r1.ret then
      some (Phase.done ⟨r1.ret, buffer, r1.serial, r1.exit⟩)
    else
      let (now, serial) := millis r1.serial
      let new_wait := usub wait (usub now started_at)
      if wait ≠ 0 ∧ new_wait > wait then
        some (Phase.done ⟨-3, buffer, serial, Exit.returned⟩)
      else
        let new_wait := if wait = 0 then 0 else new_wait
        some (Phase.again r1.buffer buffer2 new_wait serial)

/-- Lines 85-96 of `cw_rfid_read`: the second reading and the comparison. -/
def cw_rfid_read_second (fuel : Nat) (buffer buffer1 buffer2 : Buffer) (id_len new_wait : Nat)
    (serial : World) : Option Outcome :=
  match cw_rfid_read_once fuel buffer2 id_len new_wait serial with
  | none => none
  | some r2 =>
    if (id_len : Int) ≠ r2.ret then
      some ⟨r2.ret, buffer, r2.serial, r2.exit⟩
    else if memcmp_zero buffer1 r2.buffer id_len then
      some ⟨0, memcpy buffer buffer1 id_len, r2.serial, Exit.returned⟩
    else
      some ⟨-1, buffer, r2.serial, Exit.returned⟩

/-- The function `cw_rfid_read( buffer, id_len, wait, serial )`; each of the two readings may
make `fuel` passes through its loop. -/
def cw_rfid_read (fuel : Nat) (buffer : Buffer) (id_len wait : Nat) (serial : World) :
    Option Outcome :=
  match cw_rfid_read_first fuel buffer id_len wait serial with
  | none => none
  | some (Phase.done r) => some r
  | some (Phase.again buffer1 buffer2 new_wait serial) =>
    cw_rfid_read_second fuel buffer buffer1 buffer2 id_len new_wait serial

/-! ## Scripted worlds -/

/-- A serial line whose coming polls see the entries of `script` and then
`rest`. -/
def feed (script : List (Option Int)) (rest : Nat → Option Int) : Nat → Option Int :=
  match script with
  | [] => rest
  | e :: es => fun k => match k with
    | 0 => e
    | k + 1 => feed es rest k

/-- The bytes a script delivers, empty polls left out. -/
def delivered (script : List (Option Int)) : List Int :=
  script.filterMap id

/-- The frame of a payload on the wire: `0x0A`, the payload, `0x0D`. -/
def frame (payload : List Int) : List Int :=
  0x0A :: payload ++ [0x0D]

/-- A world at its start: the line follows `script` and stays silent after it,
the clock shows `clock`, fresh stack blocks hold `junk`. -/
def World.start (script : List (Option Int)) (clock : Nat → Nat) (junk : Int) : World :=
  ⟨feed script (fun _ => none), clock, fun _ _ => junk, 0, 0, 0⟩

/-- The buffer after the bytes `ps` were stored at `j`, `j + 1`, ... in turn. -/
def Buffer.store (b : Buffer) (j : Nat) : List Int → Buffer
  | [] => b
  | p :: ps => Buffer.store (b.set j p) (j + 1) ps

/-- A caller's buffer holding `x` everywhere. -/
def Buffer.const (x : Int) : Buffer := fun _ => x

/-- A world whose line delivers `bytes` and then `filler` for ever, a byte waiting
at every poll. -/
def World.busy (bytes : List Int) (filler : Int) (clock : Nat → Nat) (junk : Int) : World :=
  ⟨feed (bytes.map some) (fun _ => some filler), clock, fun _ _ => junk, 0, 0, 0⟩

/-! ## What a run saw -/

/-- The local variables at the top of pass number `k` of the loop (counting from
`0`), when the loop gets that far. -/
def locals_at (id_len wait started_at : Nat) : Nat → Locals → Option Locals
  | 0, s => some s
  | k + 1, s =>
    if s.bytes_read < id_len + 1 then
      match loop_body id_len wait started_at s with
      | Flow.next s' => locals_at id_len wait started_at k s'
      | Flow.brk _ => none
      | Flow.ret _ _ => none
    else
      none

/-- What the polls made between the worlds `w0` and `w1` saw, in order. -/
def polled (w0 w1 : World) : List (Option Int) :=
  (List.range (w1.polls - w0.polls)).map w0.line

/-- The polls of a reading delivered the start byte, `N` bytes and then a byte
other than `0x0D`. -/
def BadStop (N : Nat) (script : List (Option Int)) : Prop :=
  ∃ (ps : List Int) (x : Int), delivered script = 0x0A :: (ps ++ [x]) ∧ ps.length = N ∧ x ≠ 0x0D

/-- What the outcome `r` of a run of the loop says about the polls `script` the
run made, for a run that began with `start_found = sf`, `bytes_read = j` and the
buffer `b`: it broke on a first byte other than `0x0A`; or it took the start byte
(when still due), the `N - j` bytes still due and a last byte `x`, and returned
`N` or `-1` according to `x`; or it returned `-3` on an empty poll before all that
was delivered. -/
def Verdict (N wait : Nat) (sf : Bool) (j : Nat) (b : Buffer) (script : List (Option Int))
    (r : Outcome) : Prop :=
  (r.exit = Exit.broke ∧ r.ret = -2 ∧ sf = false ∧ r.buffer = b ∧
    ∃ (pre : List (Option Int)) (x : Int), x ≠ 0x0A ∧ delivered script = [x] ∧
      script = pre ++ [some x]) ∨
  (r.exit = Exit.returned ∧
    ∃ (pre : List (Option Int)) (ps : List Int) (x : Int),
      delivered script = (if sf then ps ++ [x] else 0x0A :: (ps ++ [x])) ∧
      j + ps.length = N ∧ r.ret = (if x = 0x0D then (N : Int) else -1) ∧
      r.buffer = Buffer.store b j ps ∧ script = pre ++ [some x]) ∨
  (r.exit = Exit.returned ∧ r.ret = -3 ∧ wait ≠ 0 ∧
    (∃ pre : List (Option Int), script = pre ++ [none]) ∧
    (delivered script).length + j + (if sf then 1 else 0) ≤ N + 1)

/-! ## Stepping the loop -/

theorem feed_cons_zero (e : Option Int) (es : List (Option Int)) (rest : Nat → Option Int) :
    feed (e :: es) rest 0 = e := rfl

theorem feed_cons_succ (e : Option Int) (es : List (Option Int)) (rest : Nat → Option Int) :
    (fun k => feed (e :: es) rest (k + 1)) = feed es rest := rfl

theorem feed_nil (rest : Nat → Option Int) : feed [] rest = rest := rfl

theorem delivered_nil : delivered [] = [] := rfl

theorem delivered_none (es : List (Option Int)) : delivered (none :: es) = delivered es := rfl

theorem delivered_some (v : Int) (es : List (Option Int)) :
    delivered (some v :: es) = v :: delivered es := rfl

/-- A poll that finds the line empty, no deadline set: nothing changes but the line. -/
theorem loop_body_empty_nowait (N sa : Nat) (sf : Bool) (j : Nat) (v : Int) (b : Buffer)
    (line : Nat → Option Int) (clock : Nat → Nat) (stack : Nat → Buffer) (p c t : Nat)
    (h : line 0 = none) :
    loop_body N 0 sa ⟨sf, j, v, b, ⟨line, clock, stack, p, c, t⟩⟩ =
      Flow.next ⟨sf, j, v, b, ⟨fun k => line (k + 1), clock, stack, p + 1, c, t⟩⟩ := by
  simp [loop_body, available, h]

theorem loop_body_start (N wait sa : Nat) (j : Nat) (v x : Int) (b : Buffer)
    (line : Nat → Option Int) (clock : Nat → Nat) (stack : Nat → Buffer) (p c t : Nat)
    (h : line 0 = some x) :
    loop_body N wait sa ⟨false, j, v, b, ⟨line, clock, stack, p, c, t⟩⟩ =
      if x = 0x0A then
        Flow.next ⟨true, j, x, b, ⟨fun k => line (k + 1), clock, stack, p + 1, c + 1, t⟩⟩
      else
        Flow.brk ⟨false, j, x, b, ⟨fun k => line (k + 1), clock, stack, p + 1, c + 1, t⟩⟩ := by
  by_cases hx : x = 0x0A <;> simp [loop_body, available, read, h, hx]

theorem loop_body_collect (N wait sa : Nat) (j : Nat) (v x : Int) (b : Buffer)
    (line : Nat → Option Int) (clock : Nat → Nat) (stack : Nat → Buffer) (p c t : Nat)
    (h : line 0 = some x) (hj : j ≠ N) :
    loop_body N wait sa ⟨true, j, v, b, ⟨line, clock, stack, p, c, t⟩⟩ =
      Flow.next ⟨true, j + 1, x, b.set j x,
        ⟨fun k => line (k + 1), clock, stack, p + 1, c + 1, t⟩⟩ := by
  simp [loop_body, available, read, h, hj]

theorem loop_body_stop (N wait sa : Nat) (v x : Int) (b : Buffer)
    (line : Nat → Option Int) (clock : Nat → Nat) (stack : Nat → Buffer) (p c t : Nat)
    (h : line 0 = some x) :
    loop_body N wait sa ⟨true, N, v, b, ⟨line, clock, stack, p, c, t⟩⟩ =
      Flow.ret (if x = 0x0D then (N : Int) else -1)
        ⟨true, N, x, b, ⟨fun k => line (k + 1), clock, stack, p + 1, c + 1, t⟩⟩ := by
  by_cases hx : x = 0x0D <;> simp [loop_body, available, read, h, hx]

theorem loop_body_empty_wait (N wait sa : Nat) (sf : Bool) (j : Nat) (v : Int) (b : Buffer)
    (line : Nat → Option Int) (clock : Nat → Nat) (stack : Nat → Buffer) (p c t : Nat)
    (h : line 0 = none) (hw : wait ≠ 0) :
    loop_body N wait sa ⟨sf, j, v, b, ⟨line, clock, stack, p, c, t⟩⟩ =
      if clock 0 % ULONG_MOD > uadd sa wait then
        Flow.ret (-3) ⟨sf, j, v, b,
          ⟨fun k => line (k + 1), fun k => clock (k + 1), stack, p + 1, c, t + 1⟩⟩
      else
        Flow.next ⟨sf, j, v, b,
          ⟨fun k => line (k + 1), fun k => clock (k + 1), stack, p + 1, c, t + 1⟩⟩ := by
  by_cases hc : clock 0 % ULONG_MOD > uadd sa wait <;>
    simp [loop_body, available, millis, h, hw, hc]

/-- More fuel never changes a result. -/
theorem loop_mono (N wait sa : Nat) :
    ∀ (fuel : Nat) (s : Locals) (r : Outcome), loop N wait sa fuel s = some r →
      ∀ fuel', fuel ≤ fuel' → loop N wait sa fuel' s = some r := by
  intro fuel
  induction fuel with
  | zero => intro s r h; simp [loop] at h
  | succ n ih =>
    intro s r h fuel' hle
    obtain ⟨m, rfl⟩ : ∃ m, fuel' = m + 1 := ⟨fuel' - 1, by omega⟩
    by_cases hg : s.bytes_read < N + 1
    · cases hb : loop_body N wait sa s with
      | next s' =>
        simp only [loop, hg, hb, if_true] at h ⊢
        exact ih s' r h m (by omega)
      | brk s' => simp only [loop, hg, hb, if_true] at h ⊢; exact h
      | ret code s' => simp only [loop, hg, hb, if_true] at h ⊢; exact h
    · simp only [loop, hg, if_false] at h ⊢; exact h

/-! ## Stores into the buffer -/

theorem store_lt (ps : List Int) :
    ∀ (b : Buffer) (j k : Nat), k < j → Buffer.store b j ps k = b k := by
  induction ps with
  | nil => intro b j k _; rfl
  | cons p ps ih =>
    intro b j k hk
    rw [Buffer.store, ih (b.set j p) (j + 1) k (by omega)]
    simp [Buffer.set]; omega

theorem store_ge (ps : List Int) :
    ∀ (b : Buffer) (j k : Nat), j + ps.length ≤ k → Buffer.store b j ps k = b k := by
  induction ps with
  | nil => intro b j k _; rfl
  | cons p ps ih =>
    intro b j k hk
    simp only [List.length_cons] at hk
    rw [Buffer.store, ih (b.set j p) (j + 1) k (by omega)]
    simp [Buffer.set]; omega

theorem store_get (ps : List Int) :
    ∀ (b : Buffer) (j i : Nat) (h : i < ps.length), Buffer.store b j ps (j + i) = ps.get ⟨i, h⟩ := by
  induction ps with
  | nil => intro b j i h; simp at h
  | cons p ps ih =>
    intro b j i h
    cases i with
    | zero =>
      rw [Buffer.store, store_lt ps (b.set j p) (j + 1) (j + 0) (by omega)]
      simp [Buffer.set]
    | succ i =>
      have h' : i < ps.length := by simpa using h
      have := ih (b.set j p) (j + 1) i h'
      rw [Buffer.store]
      have e : j + (i + 1) = j + 1 + i := by omega
      rw [e, this]
      simp

/-! ## Reading one frame -/

/-- Looking for the start byte: the loop passes over the empty polls, takes the
first byte delivered and either goes on collecting or breaks. -/
theorem loop_seek (N wait sa : Nat) (rest : Nat → Option Int) (clock : Nat → Nat)
    (stack : Nat → Buffer) :
    ∀ (script : List (Option Int)) (x : Int) (more : List Int) (v : Int) (b : Buffer)
      (p c t : Nat),
      delivered script = x :: more → (wait = 0 ∨ ∀ e ∈ script, e ≠ none) →
      ∃ (script' : List (Option Int)) (k : Nat), delivered script' = more ∧
        script'.length + k = script.length ∧ script' <:+ script ∧ 0 < k ∧
        ∀ fuel, loop N wait sa (fuel + k) ⟨false, 0, v, b, ⟨feed script rest, clock, stack, p, c, t⟩⟩ =
          if x = 0x0A then
            loop N wait sa fuel
              ⟨true, 0, x, b, ⟨feed script' rest, clock, stack, p + k, c + 1, t⟩⟩
          else
            some ⟨-2, b, ⟨feed script' rest, clock, stack, p + k, c + 1, t⟩, Exit.broke⟩ := by
  intro script
  induction script with
  | nil => intro x more v b p c t hd _; simp [delivered] at hd
  | cons e es ih =>
    intro x more v b p c t hd hw
    cases e with
    | none =>
      have hw0 : wait = 0 := by
        rcases hw with h | h
        · exact h
        · exact absurd rfl (h none (List.mem_cons_self _ _))
      subst hw0
      rw [delivered_none] at hd
      obtain ⟨script', k, h1, h2, h3, h4, h5⟩ := ih x more v b (p + 1) c t hd (Or.inl rfl)
      refine ⟨script', k + 1, h1, by simp; omega, h3.trans (List.suffix_cons _ _), by omega, ?_⟩
      intro fuel
      have hstep := loop_body_empty_nowait N sa false 0 v b (feed (none :: es) rest) clock stack
        p c t rfl
      rw [feed_cons_succ] at hstep
      rw [← Nat.add_assoc, loop, if_pos (by simp), hstep]
      simp only
      rw [h5 fuel, Nat.add_assoc, Nat.add_comm 1 k]
    | some y =>
      rw [delivered_some] at hd
      have hy : y = x := by injection hd
      have hm : delivered es = more := by injection hd
      subst hy
      refine ⟨es, 1, hm, by simp, List.suffix_cons _ _, by omega, ?_⟩
      intro fuel
      have hstep := loop_body_start N wait sa 0 v y b (feed (some y :: es) rest) clock stack
        p c t rfl
      rw [feed_cons_succ] at hstep
      rw [loop, if_pos (by simp), hstep]
      by_cases hx : y = 0x0A
      · simp [hx]
      · simp [hx]

/-- Collecting: from `bytes_read = j` the loop stores the `N - j` bytes still due,
passing over empty polls, and returns on the byte after them. -/
theorem loop_collect (N wait sa : Nat) (rest : Nat → Option Int) (clock : Nat → Nat)
    (stack : Nat → Buffer) :
    ∀ (script : List (Option Int)) (ps : List Int) (x : Int) (more : List Int) (j : Nat)
      (v : Int) (b : Buffer) (p c t : Nat),
      delivered script = ps ++ x :: more → j + ps.length = N →
      (wait = 0 ∨ ∀ e ∈ script, e ≠ none) →
      ∃ (script' : List (Option Int)) (k : Nat), delivered script' = more ∧
        script'.length + k = script.length ∧ script' <:+ script ∧ 0 < k ∧
        ∀ fuel, k ≤ fuel →
          loop N wait sa fuel ⟨true, j, v, b, ⟨feed script rest, clock, stack, p, c, t⟩⟩ =
            some ⟨if x = 0x0D then (N : Int) else -1, Buffer.store b j ps,
              ⟨feed script' rest, clock, stack, p + k, c + (ps.length + 1), t⟩, Exit.returned⟩ := by
  intro script
  induction script with
  | nil => intro ps x more j v b p c t hd _ _; simp [delivered] at hd
  | cons e es ih =>
    intro ps x more j v b p c t hd hj hw
    cases e with
    | none =>
      have hw0 : wait = 0 := by
        rcases hw with h | h
        · exact h
        · exact absurd rfl (h none (List.mem_cons_self _ _))
      subst hw0
      rw [delivered_none] at hd
      obtain ⟨script', k, h1, h2, h3, h4, h5⟩ :=
        ih ps x more j v b (p + 1) c t hd hj (Or.inl rfl)
      refine ⟨script', k + 1, h1, by simp; omega, h3.trans (List.suffix_cons _ _), by omega, ?_⟩
      intro fuel hf
      obtain ⟨m, rfl⟩ : ∃ m, fuel = m + 1 := ⟨fuel - 1, by omega⟩
      have hstep := loop_body_empty_nowait N sa true j v b (feed (none :: es) rest) clock stack
        p c t rfl
      rw [feed_cons_succ] at hstep
      rw [loop, if_pos (by simp; omega), hstep]
      simp only
      rw [h5 m (by omega), Nat.add_assoc, Nat.add_comm 1 k]
    | some y =>
      rw [delivered_some] at hd
      have hw' : wait = 0 ∨ ∀ e ∈ es, e ≠ none := by
        rcases hw with h | h
        · exact Or.inl h
        · exact Or.inr fun e he => h e (List.mem_cons_of_mem _ he)
      cases ps with
      | nil =>
        simp only [List.nil_append, List.cons.injEq] at hd
        obtain ⟨hy, hm⟩ := hd
        subst hy
        simp only [List.length_nil, Nat.add_zero] at hj
        subst hj
        refine ⟨es, 1, hm, by simp, List.suffix_cons _ _, by omega, ?_⟩
        intro fuel hf
        obtain ⟨m, rfl⟩ : ∃ m, fuel = m + 1 := ⟨fuel - 1, by omega⟩
        have hstep := loop_body_stop j wait sa v y b (feed (some y :: es) rest) clock stack
          p c t rfl
        rw [feed_cons_succ] at hstep
        rw [loop, if_pos (by simp), hstep]
        simp [Buffer.store]
      | cons q qs =>
        simp only [List.cons_append, List.cons.injEq] at hd
        obtain ⟨hy, hm⟩ := hd
        subst hy
        simp only [List.length_cons] at hj
        obtain ⟨script', k, h1, h2, h3, h4, h5⟩ :=
          ih qs x more (j + 1) y (b.set j y) (p + 1) (c + 1) t hm (by omega) hw'
        refine ⟨script', k + 1, h1, by simp; omega, h3.trans (List.suffix_cons _ _),
          by omega, ?_⟩
        intro fuel hf
        obtain ⟨m, rfl⟩ : ∃ m, fuel = m + 1 := ⟨fuel - 1, by omega⟩
        have hstep := loop_body_collect N wait sa j v y b (feed (some y :: es) rest) clock
          stack p c t rfl (by omega)
        rw [feed_cons_succ] at hstep
        rw [loop, if_pos (by simp; omega), hstep]
        simp only
        rw [h5 m (by omega)]
        simp only [Buffer.store, List.length_cons]
        have e1 : p + 1 + k = p + (k + 1) := by omega
        have e2 : c + 1 + (qs.length + 1) = c + (qs.length + 1 + 1) := by omega
        rw [e1, e2]

/-- A whole reading: start byte, `N` stored bytes and one closing byte `x`, with
empty polls in between when no deadline is set. -/
theorem read_once_framed (N wait : Nat) (rest : Nat → Option Int) (clock : Nat → Nat)
    (stack : Nat → Buffer) (script : List (Option Int)) (ps : List Int) (x : Int)
    (more : List Int) (b : Buffer) (p c t : Nat)
    (hd : delivered script = 0x0A :: (ps ++ x :: more)) (hN : ps.length = N)
    (hw : wait = 0 ∨ ∀ e ∈ script, e ≠ none) :
    ∃ (script' : List (Option Int)) (k : Nat), delivered script' = more ∧
      script'.length + k = script.length ∧ script' <:+ script ∧
      ∀ fuel, k ≤ fuel →
        cw_rfid_read_once fuel b N wait ⟨feed script rest, clock, stack, p, c, t⟩ =
          some ⟨if x = 0x0D then (N : Int) else -1, Buffer.store b 0 ps,
            ⟨feed script' rest, fun i => clock (i + 1), stack, p + k, c + (N + 2), t + 1⟩,
            Exit.returned⟩ := by
  obtain ⟨s1, k1, a1, a2, a3, a4, a5⟩ :=
    loop_seek N wait (clock 0 % ULONG_MOD) rest (fun i => clock (i + 1)) stack script 0x0A
      (ps ++ x :: more) 0 b p c (t + 1) hd hw
  have hw1 : wait = 0 ∨ ∀ e ∈ s1, e ≠ none := by
    rcases hw with h | h
    · exact Or.inl h
    · exact Or.inr fun e he => h e (a3.subset he)
  obtain ⟨s2, k2, b1, b2, b3, b4, b5⟩ :=
    loop_collect N wait (clock 0 % ULONG_MOD) rest (fun i => clock (i + 1)) stack s1 ps x more 0
      0x0A b (p + k1) (c + 1) (t + 1) a1 (by omega) hw1
  refine ⟨s2, k1 + k2, b1, by omega, b3.trans a3, ?_⟩
  intro fuel hf
  obtain ⟨m, rfl⟩ : ∃ m, fuel = m + k1 := ⟨fuel - k1, by omega⟩
  have h5 := a5 m
  rw [if_pos rfl] at h5
  simp only [cw_rfid_read_once, millis]
  rw [h5, b5 m (by omega), hN]
  have e1 : p + k1 + k2 = p + (k1 + k2) := by omega
  have e2 : c + 1 + (N + 1) = c + (N + 2) := by omega
  rw [e1, e2]

/-! ## Reading two frames -/

theorem memcmp_zero_iff (a b : Buffer) (n : Nat) :
    memcmp_zero a b n = true ↔ ∀ i, i < n → a i = b i := by
  simp [memcmp_zero]

theorem store_eq_iff (p1 p2 : List Int) (a b : Buffer) (N : Nat) (h1 : p1.length = N)
    (h2 : p2.length = N) :
    memcmp_zero (Buffer.store a 0 p1) (Buffer.store b 0 p2) N = true ↔ p1 = p2 := by
  rw [memcmp_zero_iff]
  constructor
  · intro h
    apply List.ext_get (by omega)
    intro i hi1 hi2
    have := h i (by omega)
    have e1 := store_get p1 a 0 i hi1
    have e2 := store_get p2 b 0 i hi2
    simp only [Nat.zero_add] at e1 e2
    rw [e1, e2] at this
    exact this
  · rintro rfl i hi
    have e1 := store_get p1 a 0 i (by omega)
    have e2 := store_get p1 b 0 i (by omega)
    simp only [Nat.zero_add] at e1 e2
    rw [e1, e2]

/-- Two frames in a row, no deadline: `cw_rfid_read` reads both and compares. -/
theorem read_two_frames (N : Nat) (rest : Nat → Option Int) (clock : Nat → Nat)
    (stack : Nat → Buffer) (script : List (Option Int)) (p1 p2 more : List Int)
    (buffer : Buffer) (p c t : Nat)
    (hd : delivered script = frame p1 ++ (frame p2 ++ more))
    (h1 : p1.length = N) (h2 : p2.length = N) :
    ∃ (script' : List (Option Int)) (k : Nat), delivered script' = more ∧
      script'.length + k = script.length ∧
      ∀ fuel, script.length ≤ fuel →
        cw_rfid_read fuel buffer N 0 ⟨feed script rest, clock, stack, p, c, t⟩ =
          some ⟨if p1 = p2 then 0 else -1,
            if p1 = p2 then memcpy buffer (Buffer.store (stack 0) 0 p1) N else buffer,
            ⟨feed script' rest, fun i => clock (i + 4), fun i => stack (i + 2), p + k,
              c + 2 * (N + 2), t + 4⟩,
            Exit.returned⟩ := by
  have hd1 : delivered script = 0x0A :: (p1 ++ 0x0D :: (frame p2 ++ more)) := by
    rw [hd]; simp [frame]
  obtain ⟨s1, k1, a1, a2, a3, a4⟩ :=
    read_once_framed N 0 rest (fun i => clock (i + 1)) (fun i => stack (i + 1 + 1)) script p1
      0x0D (frame p2 ++ more) (stack 0) p c (t + 1) hd1 h1 (Or.inl rfl)
  have hd2 : delivered s1 = 0x0A :: (p2 ++ 0x0D :: more) := by
    rw [a1]; simp [frame]
  obtain ⟨s2, k2, b1, b2, b3, b4⟩ :=
    read_once_framed N 0 rest (fun i => clock (i + 1 + 1 + 1)) (fun i => stack (i + 1 + 1)) s1 p2
      0x0D more (stack 1) (p + k1) (c + (N + 2)) (t + 1 + 1 + 1) hd2 h2 (Or.inl rfl)
  refine ⟨s2, k1 + k2, b1, by omega, ?_⟩
  intro fuel hf
  have r1 := a4 fuel (by omega)
  have r2 := b4 fuel (by omega)
  simp only [if_true] at r1 r2
  have hfirst : cw_rfid_read_first fuel buffer N 0 ⟨feed script rest, clock, stack, p, c, t⟩ =
      some (Phase.again (Buffer.store (stack 0) 0 p1) (stack 1) 0
        ⟨feed s1 rest, fun i => clock (i + 1 + 1 + 1), fun i => stack (i + 1 + 1), p + k1,
          c + (N + 2), t + 1 + 1 + 1⟩) := by
    simp only [cw_rfid_read_first, alloca, millis]
    rw [r1]
    simp
  have hsecond : cw_rfid_read_second fuel buffer (Buffer.store (stack 0) 0 p1) (stack 1) N 0
      ⟨feed s1 rest, fun i => clock (i + 1 + 1 + 1), fun i => stack (i + 1 + 1), p + k1,
          c + (N + 2), t + 1 + 1 + 1⟩ =
      some ⟨if p1 = p2 then 0 else -1,
            if p1 = p2 then memcpy buffer (Buffer.store (stack 0) 0 p1) N else buffer,
            ⟨feed s2 rest, fun i => clock (i + 4), fun i => stack (i + 2), p + (k1 + k2),
              c + 2 * (N + 2), t + 4⟩,
            Exit.returned⟩ := by
    simp only [cw_rfid_read_second]
    rw [r2]
    have e1 : p + k1 + k2 = p + (k1 + k2) := by omega
    have e2 : c + (N + 2) + (N + 2) = c + 2 * (N + 2) := by omega
    by_cases hp : p1 = p2
    · subst hp
      have hm := (store_eq_iff p1 p1 (stack 0) (stack 1) N h1 h2).2 rfl
      simp [hm, e1, e2]
    · have hm : memcmp_zero (Buffer.store (stack 0) 0 p1) (Buffer.store (stack 1) 0 p2) N = false := by
        cases hq : memcmp_zero (Buffer.store (stack 0) 0 p1) (Buffer.store (stack 1) 0 p2) N with
        | false => rfl
        | true => exact absurd ((store_eq_iff p1 p2 (stack 0) (stack 1) N h1 h2).1 hq) hp
      simp [hm, hp, e1, e2]
  simp only [cw_rfid_read, hfirst]
  exact hsecond

/-! ## Return codes and the wrong start byte -/

/-- The codes a `return` inside the loop can carry: `id_len`, `-1`, and `-3`
only with a deadline set. -/
theorem loop_body_ret_code (N wait sa : Nat) (s s' : Locals) (code : Int)
    (h : loop_body N wait sa s = Flow.ret code s') :
    code = N ∨ code = -1 ∨ (code = -3 ∧ wait ≠ 0) := by
  obtain ⟨sf, j, v, b, ⟨line, clock, stack, p, c, t⟩⟩ := s
  cases hl : line 0 with
  | none =>
    by_cases hw : wait = 0
    · subst hw
      rw [loop_body_empty_nowait N sa sf j v b line clock stack p c t hl] at h
      cases h
    · rw [loop_body_empty_wait N wait sa sf j v b line clock stack p c t hl hw] at h
      split at h
      · injection h with h1 h2
        exact Or.inr (Or.inr ⟨h1.symm, hw⟩)
      · cases h
  | some x =>
    cases sf with
    | false =>
      rw [loop_body_start N wait sa j v x b line clock stack p c t hl] at h
      split at h <;> cases h
    | true =>
      by_cases hj : j = N
      · subst hj
        rw [loop_body_stop j wait sa v x b line clock stack p c t hl] at h
        injection h with h1 h2
        by_cases hx : x = 0x0D
        · rw [if_pos hx] at h1; exact Or.inl h1.symm
        · rw [if_neg hx] at h1; exact Or.inr (Or.inl h1.symm)
      · rw [loop_body_collect N wait sa j v x b line clock stack p c t hl hj] at h
        cases h

/-- The codes `cw_rfid_read_once` can return, with the way it was left. -/
theorem loop_ret_code (N wait sa : Nat) :
    ∀ (fuel : Nat) (s : Locals) (r : Outcome), loop N wait sa fuel s = some r →
      (r.ret = N ∧ r.exit = Exit.returned) ∨ (r.ret = -1 ∧ r.exit = Exit.returned) ∨
      (r.ret = -2 ∧ r.exit ≠ Exit.returned) ∨
      (r.ret = -3 ∧ wait ≠ 0 ∧ r.exit = Exit.returned) := by
  intro fuel
  induction fuel with
  | zero => intro s r h; simp [loop] at h
  | succ n ih =>
    intro s r h
    by_cases hg : s.bytes_read < N + 1
    · cases hb : loop_body N wait sa s with
      | next s' =>
        simp only [loop, hg, hb, if_true] at h
        exact ih s' r h
      | brk s' =>
        simp only [loop, hg, hb, if_true, Option.some.injEq] at h
        subst h
        exact Or.inr (Or.inr (Or.inl ⟨rfl, by simp⟩))
      | ret code s' =>
        simp only [loop, hg, hb, if_true, Option.some.injEq] at h
        subst h
        rcases loop_body_ret_code N wait sa s s' code hb with h1 | h1 | ⟨h1, h2⟩
        · exact Or.inl ⟨h1, rfl⟩
        · exact Or.inr (Or.inl ⟨h1, rfl⟩)
        · exact Or.inr (Or.inr (Or.inr ⟨h1, h2, rfl⟩))
    · simp only [loop, hg, if_false, Option.some.injEq] at h
      subst h
      exact Or.inr (Or.inr (Or.inl ⟨rfl, by simp⟩))

theorem read_once_ret_code (fuel : Nat) (buffer : Buffer) (N wait : Nat) (w : World)
    (r : Outcome) (h : cw_rfid_read_once fuel buffer N wait w = some r) :
    (r.ret = N ∧ r.exit = Exit.returned) ∨ (r.ret = -1 ∧ r.exit = Exit.returned) ∨
      (r.ret = -2 ∧ r.exit ≠ Exit.returned) ∨
      (r.ret = -3 ∧ wait ≠ 0 ∧ r.exit = Exit.returned) :=
  loop_ret_code N wait _ fuel _ r h

/-- A first byte other than `0x0A` takes `cw_rfid_read_once` through the `break`
to the `return -2` after the loop. -/
theorem read_once_wrong_start (N wait : Nat) (buffer : Buffer) (w : World) (x : Int)
    (h : w.line 0 = some x) (hx : x ≠ 0x0A) (fuel : Nat) :
    cw_rfid_read_once (fuel + 1) buffer N wait w =
      some ⟨-2, buffer,
        ⟨fun k => w.line (k + 1), fun k => w.clock (k + 1), w.stack, w.polls + 1,
          w.consumed + 1, w.ticks + 1⟩, Exit.broke⟩ := by
  obtain ⟨line, clock, stack, p, c, t⟩ := w
  simp only at h
  simp only [cw_rfid_read_once, millis, loop]
  rw [if_pos (by simp), loop_body_start N wait _ 0 0 x buffer line _ stack p c (t + 1) h,
    if_neg hx]

/-- The function `cw_rfid_read` hands the `-2` of its first reading to its caller. -/
theorem read_wrong_start (N wait : Nat) (buffer : Buffer) (w : World) (x : Int)
    (h : w.line 0 = some x) (hx : x ≠ 0x0A) (fuel : Nat) :
    cw_rfid_read (fuel + 1) buffer N wait w =
      some ⟨-2, buffer,
        ⟨fun k => w.line (k + 1), fun k => w.clock (k + 1 + 1), fun k => w.stack (k + 1 + 1),
          w.polls + 1, w.consumed + 1, w.ticks + 1 + 1⟩, Exit.broke⟩ := by
  have h1 := read_once_wrong_start N wait (w.stack 0)
    ⟨w.line, fun k => w.clock (k + 1), fun k => w.stack (k + 1 + 1), w.polls, w.consumed,
      w.ticks + 1⟩ x h hx fuel
  have hN : ¬ ((N : Int) = -2) := by omega
  simp only [cw_rfid_read, cw_rfid_read_first, alloca, millis]
  rw [h1]
  simp [hN]

/-! ## A silent line and the two halves of `cw_rfid_read` -/

/-- With no byte ever waiting, the loop leaves at the first clock reading past
the deadline. -/
theorem loop_silent_timeout (N wait sa : Nat) (stack : Nat → Buffer) (hw : wait ≠ 0) :
    ∀ (j : Nat) (clock : Nat → Nat) (sf : Bool) (br : Nat) (v : Int) (b : Buffer) (p c t : Nat),
      br ≤ N → (∀ i, i < j → ¬ clock i % ULONG_MOD > uadd sa wait) →
      clock j % ULONG_MOD > uadd sa wait →
      ∀ fuel, j + 1 ≤ fuel →
        loop N wait sa fuel ⟨sf, br, v, b, ⟨fun _ => none, clock, stack, p, c, t⟩⟩ =
          some ⟨-3, b, ⟨fun _ => none, fun k => clock (k + j + 1), stack, p + j + 1, c,
            t + j + 1⟩, Exit.returned⟩ := by
  intro j
  induction j with
  | zero =>
    intro clock sf br v b p c t hbr _ hfire fuel hf
    obtain ⟨m, rfl⟩ : ∃ m, fuel = m + 1 := ⟨fuel - 1, by omega⟩
    rw [loop, if_pos (by simp; omega),
      loop_body_empty_wait N wait sa sf br v b (fun _ => none) clock stack p c t rfl hw,
      if_pos hfire]
  | succ j ih =>
    intro clock sf br v b p c t hbr hquiet hfire fuel hf
    obtain ⟨m, rfl⟩ : ∃ m, fuel = m + 1 := ⟨fuel - 1, by omega⟩
    rw [loop, if_pos (by simp; omega),
      loop_body_empty_wait N wait sa sf br v b (fun _ => none) clock stack p c t rfl hw,
      if_neg (hquiet 0 (by omega))]
    simp only
    rw [ih (fun k => clock (k + 1)) sf br v b (p + 1) c (t + 1) hbr
      (fun i hi => hquiet (i + 1) (by omega)) hfire m (by omega)]
    have e1 : p + 1 + j + 1 = p + (j + 1) + 1 := by omega
    have e2 : t + 1 + j + 1 = t + (j + 1) + 1 := by omega
    rw [e1, e2]
    rfl

/-- The first half of `cw_rfid_read`, with the allocations and the clock reading
spelt out. -/
theorem read_first_eq (fuel : Nat) (buffer : Buffer) (N wait : Nat) (w : World) :
    cw_rfid_read_first fuel buffer N wait w =
      match cw_rfid_read_once fuel (w.stack 0) N wait
          ⟨w.line, fun k => w.clock (k + 1), fun k => w.stack (k + 1 + 1), w.polls, w.consumed,
            w.ticks + 1⟩ with
      | none => none
      | some r1 =>
        if (N : Int) ≠ r1.ret then
          some (Phase.done ⟨r1.ret, buffer, r1.serial, r1.exit⟩)
        else if wait ≠ 0 ∧ usub wait (usub (r1.serial.reading 0) (w.reading 0)) > wait then
          some (Phase.done ⟨-3, buffer, (millis r1.serial).2, Exit.returned⟩)
        else
          some (Phase.again r1.buffer (w.stack 1)
            (if wait = 0 then 0 else usub wait (usub (r1.serial.reading 0) (w.reading 0)))
            (millis r1.serial).2) := rfl

/-- Codes with which `cw_rfid_read` can return before a second reading. -/
theorem read_first_done_code (fuel : Nat) (buffer : Buffer) (N wait : Nat) (w : World)
    (r : Outcome) (h : cw_rfid_read_first fuel buffer N wait w = some (Phase.done r)) :
    r.ret = -1 ∨ r.ret = -2 ∨ (r.ret = -3 ∧ wait ≠ 0) := by
  rw [read_first_eq] at h
  cases h1 : cw_rfid_read_once fuel (w.stack 0) N wait
      ⟨w.line, fun k => w.clock (k + 1), fun k => w.stack (k + 1 + 1), w.polls, w.consumed,
        w.ticks + 1⟩ with
  | none => rw [h1] at h; cases h
  | some r1 =>
    rw [h1] at h
    simp only at h
    have hc := read_once_ret_code fuel _ N wait _ r1 h1
    split at h
    · rename_i hne
      injection h with h; injection h with h; subst h
      rcases hc with ⟨h2, _⟩ | ⟨h2, _⟩ | ⟨h2, _⟩ | ⟨h2, h3, _⟩
      · exact absurd h2.symm hne
      · exact Or.inl h2
      · exact Or.inr (Or.inl h2)
      · exact Or.inr (Or.inr ⟨h2, h3⟩)
    · split at h
      · rename_i hw
        injection h with h; injection h with h; subst h
        exact Or.inr (Or.inr ⟨rfl, hw.1⟩)
      · cases h

/-- Without a deadline the second reading has none either. -/
theorem read_first_again_nowait (fuel : Nat) (buffer : Buffer) (N : Nat) (w : World)
    (b1 b2 : Buffer) (nw : Nat) (w' : World)
    (h : cw_rfid_read_first fuel buffer N 0 w = some (Phase.again b1 b2 nw w')) : nw = 0 := by
  rw [read_first_eq] at h
  cases h1 : cw_rfid_read_once fuel (w.stack 0) N 0
      ⟨w.line, fun k => w.clock (k + 1), fun k => w.stack (k + 1 + 1), w.polls, w.consumed,
        w.ticks + 1⟩ with
  | none => rw [h1] at h; cases h
  | some r1 =>
    rw [h1] at h
    simp only at h
    split at h
    · cases h
    · split at h
      · cases h
      · injection h with h; injection h with _ _ h3 _
        rw [← h3]; simp

/-- Codes with which the second half of `cw_rfid_read` can return. -/
theorem read_second_code (fuel : Nat) (buffer b1 b2 : Buffer) (N nw : Nat) (w : World)
    (r : Outcome) (h : cw_rfid_read_second fuel buffer b1 b2 N nw w = some r) :
    r.ret = 0 ∨ r.ret = -1 ∨ r.ret = -2 ∨ (r.ret = -3 ∧ nw ≠ 0) := by
  unfold cw_rfid_read_second at h
  cases h2 : cw_rfid_read_once fuel b2 N nw w with
  | none => rw [h2] at h; cases h
  | some r2 =>
    rw [h2] at h
    simp only at h
    have hc := read_once_ret_code fuel _ N nw _ r2 h2
    split at h
    · rename_i hne
      injection h with h; subst h
      rcases hc with ⟨h2, _⟩ | ⟨h2, _⟩ | ⟨h2, _⟩ | ⟨h2, h3, _⟩
      · exact absurd h2.symm hne
      · exact Or.inr (Or.inl h2)
      · exact Or.inr (Or.inr (Or.inl h2))
      · exact Or.inr (Or.inr (Or.inr ⟨h2, h3⟩))
    · split at h
      · injection h with h; subst h; exact Or.inl rfl
      · injection h with h; subst h; exact Or.inr (Or.inl rfl)

/-- The function `cw_rfid_read` when its first half has returned. -/
theorem read_eq_of_done (fuel : Nat) (buffer : Buffer) (N wait : Nat) (w : World) (r : Outcome)
    (h : cw_rfid_read_first fuel buffer N wait w = some (Phase.done r)) :
    cw_rfid_read fuel buffer N wait w = some r := by
  unfold cw_rfid_read
  rw [h]

/-- The function `cw_rfid_read` when its first half calls for a second reading. -/
theorem read_eq_of_again (fuel : Nat) (buffer : Buffer) (N wait : Nat) (w : World)
    (b1 b2 : Buffer) (nw : Nat) (w' : World)
    (h : cw_rfid_read_first fuel buffer N wait w = some (Phase.again b1 b2 nw w')) :
    cw_rfid_read fuel buffer N wait w = cw_rfid_read_second fuel buffer b1 b2 N nw w' := by
  unfold cw_rfid_read
  rw [h]

/-- The codes `cw_rfid_read` can return: `0`, `-1`, `-2`, and `-3` only with a
deadline set. -/
theorem read_ret_code (fuel : Nat) (buffer : Buffer) (N wait : Nat) (w : World) (r : Outcome)
    (h : cw_rfid_read fuel buffer N wait w = some r) :
    r.ret = 0 ∨ r.ret = -1 ∨ r.ret = -2 ∨ (r.ret = -3 ∧ wait ≠ 0) := by
  cases hf : cw_rfid_read_first fuel buffer N wait w with
  | none => simp [cw_rfid_read, hf] at h
  | some ph =>
    cases ph with
    | done r' =>
      rw [read_eq_of_done fuel buffer N wait w r' hf] at h
      simp only [Option.some.injEq] at h
      subst h
      rcases read_first_done_code fuel buffer N wait w r' hf with h1 | h1 | h1
      · exact Or.inr (Or.inl h1)
      · exact Or.inr (Or.inr (Or.inl h1))
      · exact Or.inr (Or.inr (Or.inr h1))
    | again b1 b2 nw w' =>
      rw [read_eq_of_again fuel buffer N wait w b1 b2 nw w' hf] at h
      rcases read_second_code fuel buffer b1 b2 N nw w' r h with h1 | h1 | h1 | ⟨h1, h2⟩
      · exact Or.inl h1
      · exact Or.inr (Or.inl h1)
      · exact Or.inr (Or.inr (Or.inl h1))
      · refine Or.inr (Or.inr (Or.inr ⟨h1, ?_⟩))
        intro hw
        subst hw
        exact h2 (read_first_again_nowait fuel buffer N w b1 b2 nw w' hf)

/-- No deadline and a line that stays silent: the loop never leaves. -/
theorem loop_silent_nowait (N sa : Nat) (clock : Nat → Nat) (stack : Nat → Buffer) :
    ∀ (fuel : Nat) (sf : Bool) (br : Nat) (v : Int) (b : Buffer) (p c t : Nat), br ≤ N →
      loop N 0 sa fuel ⟨sf, br, v, b, ⟨fun _ => none, clock, stack, p, c, t⟩⟩ = none := by
  intro fuel
  induction fuel with
  | zero => intros; rfl
  | succ n ih =>
    intro sf br v b p c t hbr
    rw [loop, if_pos (by simp; omega),
      loop_body_empty_nowait N sa sf br v b (fun _ => none) clock stack p c t rfl]
    exact ih sf br v b (p + 1) c t hbr

/-! ## The deadline of the second reading -/

theorem usub_lt (a b : Nat) : usub a b < ULONG_MOD :=
  Nat.mod_lt _ (by decide)

theorem reading_lt (w : World) (k : Nat) : w.reading k < ULONG_MOD :=
  Nat.mod_lt _ (by decide)

/-- The unsigned difference `D - e` exceeds `D` exactly when it wrapped around. -/
theorem usub_gt_iff (D e : Nat) (hD : D < ULONG_MOD) (he : e < ULONG_MOD) :
    usub D e > D ↔ D < e := by
  simp only [usub, ULONG_MOD] at *
  norm_num at *
  omega

theorem usub_of_le (D e : Nat) (hD : D < ULONG_MOD) (he : e ≤ D) : usub D e = D - e := by
  simp only [usub, ULONG_MOD] at *
  norm_num at *
  omega

/-- Every pass through the loop body makes exactly one poll. -/
theorem loop_body_polls (N wait sa : Nat) (s : Locals) :
    match loop_body N wait sa s with
    | Flow.next s' => s'.serial.polls = s.serial.polls + 1 ∧
        (s.bytes_read ≤ N → s'.bytes_read ≤ N)
    | Flow.brk s' => s'.serial.polls = s.serial.polls + 1
    | Flow.ret _ s' => s'.serial.polls = s.serial.polls + 1 := by
  obtain ⟨sf, j, v, b, ⟨line, clock, stack, p, c, t⟩⟩ := s
  cases hl : line 0 with
  | none =>
    by_cases hw : wait = 0
    · subst hw
      rw [loop_body_empty_nowait N sa sf j v b line clock stack p c t hl]
      exact ⟨rfl, fun h => h⟩
    · rw [loop_body_empty_wait N wait sa sf j v b line clock stack p c t hl hw]
      by_cases hc : clock 0 % ULONG_MOD > uadd sa wait
      · rw [if_pos hc]
      · rw [if_neg hc]; exact ⟨rfl, fun h => h⟩
  | some x =>
    cases sf with
    | false =>
      rw [loop_body_start N wait sa j v x b line clock stack p c t hl]
      by_cases hx : x = 0x0A
      · rw [if_pos hx]; exact ⟨rfl, fun h => h⟩
      · rw [if_neg hx]
    | true =>
      by_cases hj : j = N
      · subst hj
        rw [loop_body_stop j wait sa v x b line clock stack p c t hl]
      · rw [loop_body_collect N wait sa j v x b line clock stack p c t hl hj]
        exact ⟨rfl, fun h => by simp only at h ⊢; omega⟩

/-- A run of the loop that starts with `bytes_read ≤ id_len` polls at least once
before it returns. -/
theorem loop_polls_lt (N wait sa : Nat) :
    ∀ (fuel : Nat) (s : Locals) (r : Outcome), loop N wait sa fuel s = some r →
      s.bytes_read ≤ N → s.serial.polls < r.serial.polls := by
  intro fuel
  induction fuel with
  | zero => intro s r h; simp [loop] at h
  | succ n ih =>
    intro s r h hb
    have hg : s.bytes_read < N + 1 := by omega
    have hp := loop_body_polls N wait sa s
    cases hbody : loop_body N wait sa s with
    | next s' =>
      rw [hbody] at hp
      simp only [loop, hg, hbody, if_true] at h
      have := ih s' r h (hp.2 hb)
      omega
    | brk s' =>
      rw [hbody] at hp
      simp only [loop, hg, hbody, if_true, Option.some.injEq] at h
      subst h
      simp only at hp ⊢
      omega
    | ret code s' =>
      rw [hbody] at hp
      simp only [loop, hg, hbody, if_true, Option.some.injEq] at h
      subst h
      simp only at hp ⊢
      omega

theorem read_once_polls_lt (fuel : Nat) (buffer : Buffer) (N wait : Nat) (w : World)
    (r : Outcome) (h : cw_rfid_read_once fuel buffer N wait w = some r) :
    w.polls < r.serial.polls :=
  loop_polls_lt N wait _ fuel _ r h (Nat.zero_le _)

theorem read_second_polls_lt (fuel : Nat) (buffer b1 b2 : Buffer) (N nw : Nat) (w : World)
    (r : Outcome) (h : cw_rfid_read_second fuel buffer b1 b2 N nw w = some r) :
    w.polls < r.serial.polls := by
  unfold cw_rfid_read_second at h
  cases h2 : cw_rfid_read_once fuel b2 N nw w with
  | none => rw [h2] at h; cases h
  | some r2 =>
    rw [h2] at h
    simp only at h
    have hc := read_once_polls_lt fuel _ N nw _ r2 h2
    split at h
    · injection h with h; subst h; exact hc
    · split at h
      · injection h with h; subst h; exact hc
      · injection h with h; subst h; exact hc

/-! ## Fuel -/

theorem read_once_mono (fuel : Nat) (buffer : Buffer) (N wait : Nat) (w : World) (r : Outcome)
    (h : cw_rfid_read_once fuel buffer N wait w = some r) (fuel' : Nat) (hf : fuel ≤ fuel') :
    cw_rfid_read_once fuel' buffer N wait w = some r :=
  loop_mono N wait _ fuel _ r h fuel' hf

theorem read_first_mono (fuel : Nat) (buffer : Buffer) (N wait : Nat) (w : World) (ph : Phase)
    (h : cw_rfid_read_first fuel buffer N wait w = some ph) (fuel' : Nat) (hf : fuel ≤ fuel') :
    cw_rfid_read_first fuel' buffer N wait w = some ph := by
  rw [read_first_eq] at h ⊢
  cases h1 : cw_rfid_read_once fuel (w.stack 0) N wait
      ⟨w.line, fun k => w.clock (k + 1), fun k => w.stack (k + 1 + 1), w.polls, w.consumed,
        w.ticks + 1⟩ with
  | none => rw [h1] at h; cases h
  | some r1 =>
    rw [h1] at h
    rw [read_once_mono fuel _ N wait _ r1 h1 fuel' hf]
    exact h

theorem read_second_mono (fuel : Nat) (buffer b1 b2 : Buffer) (N nw : Nat) (w : World)
    (r : Outcome) (h : cw_rfid_read_second fuel buffer b1 b2 N nw w = some r) (fuel' : Nat)
    (hf : fuel ≤ fuel') : cw_rfid_read_second fuel' buffer b1 b2 N nw w = some r := by
  unfold cw_rfid_read_second at h ⊢
  cases h2 : cw_rfid_read_once fuel b2 N nw w with
  | none => rw [h2] at h; cases h
  | some r2 =>
    rw [h2] at h
    rw [read_once_mono fuel _ N nw _ r2 h2 fuel' hf]
    exact h

/-- More loop passes never change what `cw_rfid_read` returns. -/
theorem read_mono (fuel : Nat) (buffer : Buffer) (N wait : Nat) (w : World) (r : Outcome)
    (h : cw_rfid_read fuel buffer N wait w = some r) (fuel' : Nat) (hf : fuel ≤ fuel') :
    cw_rfid_read fuel' buffer N wait w = some r := by
  cases hph : cw_rfid_read_first fuel buffer N wait w with
  | none => simp [cw_rfid_read, hph] at h
  | some ph =>
    have hph' := read_first_mono fuel buffer N wait w ph hph fuel' hf
    cases ph with
    | done r' =>
      rw [read_eq_of_done fuel buffer N wait w r' hph] at h
      rw [read_eq_of_done fuel' buffer N wait w r' hph']
      exact h
    | again b1 b2 nw w' =>
      rw [read_eq_of_again fuel buffer N wait w b1 b2 nw w' hph] at h
      rw [read_eq_of_again fuel' buffer N wait w b1 b2 nw w' hph']
      exact read_second_mono fuel buffer b1 b2 N nw w' r h fuel' hf

/-- No deadline and a silent line: `cw_rfid_read_once` does not return. -/
theorem read_once_silent_nowait (fuel : Nat) (buffer : Buffer) (N : Nat) (w : World)
    (hsilent : ∀ k, w.line k = none) : cw_rfid_read_once fuel buffer N 0 w = none := by
  obtain ⟨line, clock, stack, p, c, t⟩ := w
  have hline : line = fun _ => none := funext hsilent
  subst hline
  simp only [cw_rfid_read_once, millis]
  exact loop_silent_nowait N _ _ stack fuel false 0 0 buffer p c (t + 1) (by omega)

/-! ## The polls a run made -/

theorem feed_of_shift (line : Nat → Option Int) (e : Option Int) (script : List (Option Int))
    (l : Nat → Option Int) (h0 : line 0 = e) (hs : (fun k => line (k + 1)) = feed script l) :
    line = feed (e :: script) l := by
  funext k
  cases k with
  | zero => exact h0
  | succ k => exact congrFun hs k

theorem feed_range (script : List (Option Int)) :
    ∀ l : Nat → Option Int, (List.range script.length).map (feed script l) = script := by
  induction script with
  | nil => intro l; rfl
  | cons e es ih =>
    intro l
    rw [List.length_cons, List.range_succ_eq_map, List.map_cons, List.map_map]
    have : (feed (e :: es) l ∘ Nat.succ) = feed es l := rfl
    rw [this, ih l]
    rfl

/-- An empty poll either lets the loop go on or, with a deadline set, ends it with
`-3`; either way only the line, the poll count and the clock move. -/
theorem loop_body_none (N wait sa : Nat) (sf : Bool) (j : Nat) (v : Int) (b : Buffer)
    (line : Nat → Option Int) (clock : Nat → Nat) (stack : Nat → Buffer) (p c t : Nat)
    (h : line 0 = none) :
    (∃ (clock' : Nat → Nat) (t' : Nat),
      loop_body N wait sa ⟨sf, j, v, b, ⟨line, clock, stack, p, c, t⟩⟩ =
        Flow.next ⟨sf, j, v, b, ⟨fun k => line (k + 1), clock', stack, p + 1, c, t'⟩⟩) ∨
    (wait ≠ 0 ∧ ∃ (clock' : Nat → Nat) (t' : Nat),
      loop_body N wait sa ⟨sf, j, v, b, ⟨line, clock, stack, p, c, t⟩⟩ =
        Flow.ret (-3) ⟨sf, j, v, b, ⟨fun k => line (k + 1), clock', stack, p + 1, c, t'⟩⟩) := by
  by_cases hw : wait = 0
  · subst hw
    exact Or.inl ⟨clock, t, loop_body_empty_nowait N sa sf j v b line clock stack p c t h⟩
  · rw [loop_body_empty_wait N wait sa sf j v b line clock stack p c t h hw]
    by_cases hc : clock 0 % ULONG_MOD > uadd sa wait
    · rw [if_pos hc]; exact Or.inr ⟨hw, _, _, rfl⟩
    · rw [if_neg hc]; exact Or.inl ⟨_, _, rfl⟩

theorem verdict_cons_none (N wait : Nat) (sf : Bool) (j : Nat) (b : Buffer)
    (script : List (Option Int)) (r : Outcome) (h : Verdict N wait sf j b script r) :
    Verdict N wait sf j b (none :: script) r := by
  rcases h with ⟨h1, h2, h3, h4, pre, x, h5, h6, h7⟩ | ⟨h1, pre, ps, x, h2, h3, h4, h5, h6⟩ |
    ⟨h1, h2, h3, ⟨pre, h4⟩, h5⟩
  · exact Or.inl ⟨h1, h2, h3, h4, none :: pre, x, h5, h6, by rw [h7]; rfl⟩
  · exact Or.inr (Or.inl ⟨h1, none :: pre, ps, x, h2, h3, h4, h5, by rw [h6]; rfl⟩)
  · exact Or.inr (Or.inr ⟨h1, h2, h3, ⟨none :: pre, by rw [h4]; rfl⟩, h5⟩)

theorem verdict_cons_start (N wait : Nat) (j : Nat) (b : Buffer)
    (script : List (Option Int)) (r : Outcome) (h : Verdict N wait true j b script r) :
    Verdict N wait false j b (some 0x0A :: script) r := by
  rcases h with ⟨_, _, h3, _⟩ | ⟨h1, pre, ps, x, h2, h3, h4, h5, h6⟩ |
    ⟨h1, h2, h3, ⟨pre, h4⟩, h5⟩
  · cases h3
  · refine Or.inr (Or.inl ⟨h1, some 0x0A :: pre, ps, x, ?_, h3, h4, h5, by rw [h6]; rfl⟩)
    rw [delivered_some, h2]
    simp
  · refine Or.inr (Or.inr ⟨h1, h2, h3, ⟨some 0x0A :: pre, by rw [h4]; rfl⟩, ?_⟩)
    rw [delivered_some]
    simp only [List.length_cons, if_true] at h5 ⊢
    simp only [Bool.false_eq_true, if_false]
    omega

theorem verdict_cons_collect (N wait : Nat) (j : Nat) (x : Int) (b : Buffer)
    (script : List (Option Int)) (r : Outcome)
    (h : Verdict N wait true (j + 1) (b.set j x) script r) :
    Verdict N wait true j b (some x :: script) r := by
  rcases h with ⟨_, _, h3, _⟩ | ⟨h1, pre, ps, y, h2, h3, h4, h5, h6⟩ |
    ⟨h1, h2, h3, ⟨pre, h4⟩, h5⟩
  · cases h3
  · refine Or.inr (Or.inl ⟨h1, some x :: pre, x :: ps, y, ?_, ?_, h4, ?_, by rw [h6]; rfl⟩)
    · rw [delivered_some]
      simp only [if_true] at h2 ⊢
      rw [h2]; rfl
    · simp only [List.length_cons]; omega
    · rw [h5]; rfl
  · refine Or.inr (Or.inr ⟨h1, h2, h3, ⟨some x :: pre, by rw [h4]; rfl⟩, ?_⟩)
    rw [delivered_some]
    simp only [List.length_cons, if_true] at h5 ⊢
    omega

/-- Every run of the loop that returns, having begun with `bytes_read ≤ id_len`,
made the polls of some script, and its outcome is the verdict on that script. -/
theorem loop_trace (N wait sa : Nat) :
    ∀ (fuel : Nat) (sf : Bool) (j : Nat) (v : Int) (b : Buffer) (line : Nat → Option Int)
      (clock : Nat → Nat) (stack : Nat → Buffer) (p c t : Nat) (r : Outcome),
      loop N wait sa fuel ⟨sf, j, v, b, ⟨line, clock, stack, p, c, t⟩⟩ = some r → j ≤ N →
      ∃ script : List (Option Int), line = feed script r.serial.line ∧
        r.serial.polls = p + script.length ∧
        r.serial.consumed = c + (delivered script).length ∧
        Verdict N wait sf j b script r := by
  intro fuel
  induction fuel with
  | zero => intro sf j v b line clock stack p c t r h; simp [loop] at h
  | succ n ih =>
    intro sf j v b line clock stack p c t r h hj
    rw [loop, if_pos (by simp; omega)] at h
    cases hl : line 0 with
    | none =>
      rcases loop_body_none N wait sa sf j v b line clock stack p c t hl with
        ⟨clock', t', hb⟩ | ⟨hw, clock', t', hb⟩
      · rw [hb] at h
        simp only at h
        obtain ⟨script, h1, h2, h3, h4⟩ := ih sf j v b _ clock' stack (p + 1) c t' r h hj
        refine ⟨none :: script, feed_of_shift line none script _ hl h1, ?_, ?_,
          verdict_cons_none N wait sf j b script r h4⟩
        · rw [h2, List.length_cons]; omega
        · rw [h3, delivered_none]
      · rw [hb] at h
        simp only [Option.some.injEq] at h
        subst h
        refine ⟨[none], feed_of_shift line none [] _ hl rfl, rfl, rfl, ?_⟩
        refine Or.inr (Or.inr ⟨rfl, rfl, hw, ⟨[], rfl⟩, ?_⟩)
        rw [delivered_none, delivered_nil]
        cases sf <;> simp <;> omega
    | some x =>
      cases sf with
      | false =>
        rw [loop_body_start N wait sa j v x b line clock stack p c t hl] at h
        by_cases hx : x = 0x0A
        · rw [if_pos hx] at h
          simp only at h
          subst hx
          obtain ⟨script, h1, h2, h3, h4⟩ := ih true j _ b _ clock stack (p + 1) (c + 1) t r h hj
          refine ⟨some 0x0A :: script, feed_of_shift line _ script _ hl h1, ?_, ?_,
            verdict_cons_start N wait j b script r h4⟩
          · rw [h2, List.length_cons]; omega
          · rw [h3, delivered_some, List.length_cons]; omega
        · rw [if_neg hx] at h
          simp only [Option.some.injEq] at h
          subst h
          refine ⟨[some x], feed_of_shift line _ [] _ hl rfl, rfl, rfl, ?_⟩
          exact Or.inl ⟨rfl, rfl, rfl, rfl, [], x, hx, rfl, rfl⟩
      | true =>
        by_cases hjN : j = N
        · subst hjN
          rw [loop_body_stop j wait sa v x b line clock stack p c t hl] at h
          simp only [Option.some.injEq] at h
          subst h
          refine ⟨[some x], feed_of_shift line _ [] _ hl rfl, rfl, rfl, ?_⟩
          exact Or.inr (Or.inl ⟨rfl, [], [], x, rfl, rfl, rfl, rfl, rfl⟩)
        · rw [loop_body_collect N wait sa j v x b line clock stack p c t hl hjN] at h
          simp only at h
          obtain ⟨script, h1, h2, h3, h4⟩ :=
            ih true (j + 1) x (b.set j x) _ clock stack (p + 1) (c + 1) t r h (by omega)
          refine ⟨some x :: script, feed_of_shift line _ script _ hl h1, ?_, ?_,
            verdict_cons_collect N wait j x b script r h4⟩
          · rw [h2, List.length_cons]; omega
          · rw [h3, delivered_some, List.length_cons]; omega

/-- The polls made and the bytes taken by a call of `cw_rfid_read_once` that
returns, and the verdict its outcome gives on them. -/
theorem read_once_trace (fuel : Nat) (buffer : Buffer) (N wait : Nat) (w : World) (r : Outcome)
    (h : cw_rfid_read_once fuel buffer N wait w = some r) :
    w.line = feed (polled w r.serial) r.serial.line ∧
    r.serial.polls = w.polls + (polled w r.serial).length ∧
    r.serial.consumed = w.consumed + (delivered (polled w r.serial)).length ∧
    Verdict N wait false 0 buffer (polled w r.serial) r := by
  obtain ⟨line, clock, stack, p, c, t⟩ := w
  simp only [cw_rfid_read_once, millis] at h
  obtain ⟨script, h1, h2, h3, h4⟩ := loop_trace N wait _ fuel false 0 0 buffer line _ stack p c
    (t + 1) r h (Nat.zero_le _)
  have hp : polled ⟨line, clock, stack, p, c, t⟩ r.serial = script := by
    simp only [polled]
    rw [h2, Nat.add_sub_cancel_left, h1]
    exact feed_range script _
  rw [hp]
  exact ⟨h1, h2, h3, h4⟩

/-- The first half of `cw_rfid_read` ends in a second reading only after a first
reading that succeeded. -/
theorem read_first_again_inv (fuel : Nat) (buffer : Buffer) (N wait : Nat) (w : World)
    (b1 b2 : Buffer) (nw : Nat) (w' : World)
    (h : cw_rfid_read_first fuel buffer N wait w = some (Phase.again b1 b2 nw w')) :
    ∃ r1, cw_rfid_read_once fuel (alloca w).1 N wait (millis (alloca (alloca w).2).2).2 =
        some r1 ∧ r1.ret = N ∧ b1 = r1.buffer ∧ b2 = w.stack 1 ∧ w' = (millis r1.serial).2 := by
  rw [read_first_eq] at h
  cases h1 : cw_rfid_read_once fuel (w.stack 0) N wait
      ⟨w.line, fun k => w.clock (k + 1), fun k => w.stack (k + 1 + 1), w.polls, w.consumed,
        w.ticks + 1⟩ with
  | none => rw [h1] at h; cases h
  | some r1 =>
    rw [h1] at h
    simp only at h
    split at h
    · cases h
    · rename_i hne
      split at h
      · cases h
      · injection h with h
        injection h with e1 e2 e3 e4
        refine ⟨r1, h1, ?_, e1.symm, e2.symm, e4.symm⟩
        by_contra hc
        exact hne (fun heq => hc heq.symm)

/-- The first half of `cw_rfid_read` returns either the code of a first reading
that failed, or `-3` after one that succeeded. -/
theorem read_first_done_inv (fuel : Nat) (buffer : Buffer) (N wait : Nat) (w : World)
    (r : Outcome) (h : cw_rfid_read_first fuel buffer N wait w = some (Phase.done r)) :
    ∃ r1, cw_rfid_read_once fuel (alloca w).1 N wait (millis (alloca (alloca w).2).2).2 =
        some r1 ∧
      ((r1.ret ≠ N ∧ r = ⟨r1.ret, buffer, r1.serial, r1.exit⟩) ∨
       (r1.ret = N ∧ wait ≠ 0 ∧ r = ⟨-3, buffer, (millis r1.serial).2, Exit.returned⟩)) := by
  rw [read_first_eq] at h
  cases h1 : cw_rfid_read_once fuel (w.stack 0) N wait
      ⟨w.line, fun k => w.clock (k + 1), fun k => w.stack (k + 1 + 1), w.polls, w.consumed,
        w.ticks + 1⟩ with
  | none => rw [h1] at h; cases h
  | some r1 =>
    rw [h1] at h
    simp only at h
    refine ⟨r1, h1, ?_⟩
    split at h
    · rename_i hne
      injection h with h; injection h with h
      exact Or.inl ⟨fun heq => hne heq.symm, h.symm⟩
    · rename_i hne
      have hN : r1.ret = N := by
        by_contra hc
        exact hne (fun heq => hc heq.symm)
      split at h
      · rename_i hw
        injection h with h; injection h with h
        exact Or.inr ⟨hN, hw.1, h.symm⟩
      · cases h

/-- A run of the loop returns `-3` only with a deadline set and at a clock reading
above the deadline as the code computes it. -/
theorem loop_timeout_reading (N wait sa : Nat) :
    ∀ (fuel : Nat) (sf : Bool) (j : Nat) (v : Int) (b : Buffer) (line : Nat → Option Int)
      (clock : Nat → Nat) (stack : Nat → Buffer) (p c t : Nat) (r : Outcome),
      loop N wait sa fuel ⟨sf, j, v, b, ⟨line, clock, stack, p, c, t⟩⟩ = some r →
      r.ret = -3 → j ≤ N →
      wait ≠ 0 ∧ ∃ m, clock m % ULONG_MOD > uadd sa wait ∧ r.serial.ticks = t + m + 1 := by
  intro fuel
  induction fuel with
  | zero => intro sf j v b line clock stack p c t r h; simp [loop] at h
  | succ n ih =>
    intro sf j v b line clock stack p c t r h hr hj
    rw [loop, if_pos (by simp; omega)] at h
    cases hl : line 0 with
    | none =>
      by_cases hw : wait = 0
      · subst hw
        rw [loop_body_empty_nowait N sa sf j v b line clock stack p c t hl] at h
        exact ih sf j v b _ clock stack (p + 1) c t r h hr hj
      · rw [loop_body_empty_wait N wait sa sf j v b line clock stack p c t hl hw] at h
        by_cases hc : clock 0 % ULONG_MOD > uadd sa wait
        · rw [if_pos hc] at h
          simp only [Option.some.injEq] at h
          subst h
          exact ⟨hw, 0, hc, rfl⟩
        · rw [if_neg hc] at h
          obtain ⟨_, m, h1, h2⟩ := ih sf j v b _ (fun k => clock (k + 1)) stack (p + 1) c (t + 1)
            r h hr hj
          exact ⟨hw, m + 1, h1, by rw [h2]; omega⟩
    | some x =>
      cases sf with
      | false =>
        rw [loop_body_start N wait sa j v x b line clock stack p c t hl] at h
        by_cases hx : x = 0x0A
        · rw [if_pos hx] at h
          exact ih true j x b _ clock stack (p + 1) (c + 1) t r h hr hj
        · rw [if_neg hx] at h
          simp only [Option.some.injEq] at h
          subst h
          simp at hr
      | true =>
        by_cases hjN : j = N
        · subst hjN
          rw [loop_body_stop j wait sa v x b line clock stack p c t hl] at h
          simp only [Option.some.injEq] at h
          subst h
          simp only at hr
          split at hr <;> omega
        · rw [loop_body_collect N wait sa j v x b line clock stack p c t hl hjN] at h
          exact ih true (j + 1) x (b.set j x) _ clock stack (p + 1) (c + 1) t r h hr (by omega)

/-- What does hold of a timeout: `cw_rfid_read_once` returns `-3` only with
`wait ≠ 0`, at a poll that found the line empty, and at a clock reading above
`started_at + wait` as an `unsigned long` sum. -/
theorem read_once_timeout_only (fuel : Nat) (buffer : Buffer) (N wait : Nat) (w : World)
    (r : Outcome) (h : cw_rfid_read_once fuel buffer N wait w = some r) (hr : r.ret = -3) :
    wait ≠ 0 ∧ (∃ pre, polled w r.serial = pre ++ [none]) ∧
      ∃ m, r.serial.ticks = w.ticks + m + 2 ∧ w.reading (m + 1) > uadd (w.reading 0) wait := by
  obtain ⟨_, _, _, hv⟩ := read_once_trace fuel buffer N wait w r h
  have hlast : ∃ pre, polled w r.serial = pre ++ [none] := by
    rcases hv with ⟨_, h2, _⟩ | ⟨_, pre, ps, x, _, _, h4, _⟩ | ⟨_, _, _, h4, _⟩
    · rw [hr] at h2; cases h2
    · rw [hr] at h4; split at h4 <;> omega
    · exact h4
  obtain ⟨line, clock, stack, p, c, t⟩ := w
  simp only [cw_rfid_read_once, millis] at h
  obtain ⟨hw, m, h1, h2⟩ := loop_timeout_reading N wait _ fuel false 0 0 buffer line _ stack p c
    (t + 1) r h hr (Nat.zero_le _)
  exact ⟨hw, hlast, m, by rw [h2]; simp only; omega, h1⟩

theorem delivered_map_some (bytes : List Int) : delivered (bytes.map some) = bytes := by
  induction bytes with
  | nil => rfl
  | cons x xs ih => rw [List.map_cons, delivered_some, ih]

/-- With a byte waiting at every poll, neither `wait` nor the clock has any part
in the code returned or in what is stored. -/
theorem loop_busy_view (N : Nat) :
    ∀ (fuel : Nat) (sf : Bool) (j : Nat) (b : Buffer) (line : Nat → Option Int),
      (∀ k, line k ≠ none) →
      ∀ (wait sa : Nat) (v : Int) (clock : Nat → Nat) (stack : Nat → Buffer) (p c t : Nat)
        (wait' sa' : Nat) (v' : Int) (clock' : Nat → Nat) (stack' : Nat → Buffer)
        (p' c' t' : Nat),
        (loop N wait sa fuel ⟨sf, j, v, b, ⟨line, clock, stack, p, c, t⟩⟩).map
            (fun r => (r.ret, r.buffer)) =
          (loop N wait' sa' fuel ⟨sf, j, v', b, ⟨line, clock', stack', p', c', t'⟩⟩).map
            (fun r => (r.ret, r.buffer)) := by
  intro fuel
  induction fuel with
  | zero => intros; rfl
  | succ n ih =>
    intro sf j b line hbusy wait sa v clock stack p c t wait' sa' v' clock' stack' p' c' t'
    have hshift : ∀ k, (fun k => line (k + 1)) k ≠ none := fun k => hbusy (k + 1)
    by_cases hg : j < N + 1
    · rw [loop, loop, if_pos hg, if_pos hg]
      cases hl : line 0 with
      | none => exact absurd hl (hbusy 0)
      | some x =>
        cases sf with
        | false =>
          rw [loop_body_start N wait sa j v x b line clock stack p c t hl,
            loop_body_start N wait' sa' j v' x b line clock' stack' p' c' t' hl]
          by_cases hx : x = 0x0A
          · rw [if_pos hx, if_pos hx]
            exact ih true j b _ hshift wait sa x clock stack _ _ t wait' sa' x clock' stack' _ _ t'
          · rw [if_neg hx, if_neg hx]
            rfl
        | true =>
          by_cases hjN : j = N
          · subst hjN
            rw [loop_body_stop j wait sa v x b line clock stack p c t hl,
              loop_body_stop j wait' sa' v' x b line clock' stack' p' c' t' hl]
            rfl
          · rw [loop_body_collect N wait sa j v x b line clock stack p c t hl hjN,
              loop_body_collect N wait' sa' j v' x b line clock' stack' p' c' t' hl hjN]
            exact ih true (j + 1) (b.set j x) _ hshift wait sa x clock stack _ _ t wait' sa' x
              clock' stack' _ _ t'
    · rw [loop, loop, if_neg hg, if_neg hg]
      rfl

/-- With a byte waiting at every poll, collecting ends within the passes still
due, and without a look at the clock. -/
theorem loop_busy_collect (N wait sa : Nat) :
    ∀ (d j : Nat), j + d = N →
      ∀ (v : Int) (b : Buffer) (line : Nat → Option Int) (clock : Nat → Nat)
        (stack : Nat → Buffer) (p c t : Nat), (∀ k, line k ≠ none) →
        ∃ r, loop N wait sa (d + 1) ⟨true, j, v, b, ⟨line, clock, stack, p, c, t⟩⟩ = some r ∧
          (r.ret = N ∨ r.ret = -1) ∧ r.serial.ticks = t := by
  intro d
  induction d with
  | zero =>
    intro j hj v b line clock stack p c t hbusy
    simp only [Nat.add_zero] at hj
    subst hj
    cases hl : line 0 with
    | none => exact absurd hl (hbusy 0)
    | some x =>
      refine ⟨_, by rw [loop, if_pos (by simp),
        loop_body_stop j wait sa v x b line clock stack p c t hl], ?_, rfl⟩
      by_cases hx : x = 0x0D
      · exact Or.inl (by simp [hx])
      · exact Or.inr (by simp [hx])
  | succ d ih =>
    intro j hj v b line clock stack p c t hbusy
    cases hl : line 0 with
    | none => exact absurd hl (hbusy 0)
    | some x =>
      obtain ⟨r, h1, h2, h3⟩ := ih (j + 1) (by omega) x (b.set j x) (fun k => line (k + 1)) clock
        stack (p + 1) (c + 1) t (fun k => hbusy (k + 1))
      refine ⟨r, ?_, h2, h3⟩
      rw [loop, if_pos (by simp; omega),
        loop_body_collect N wait sa j v x b line clock stack p c t hl (by omega)]
      exact h1

/-- With a byte waiting at every poll, `cw_rfid_read_once` returns within
`id_len + 2` passes, whatever `wait` and the clock, with `id_len`, `-1` or `-2`,
and having read the clock only at its start. -/
theorem read_once_busy_returns (N wait : Nat) (buffer : Buffer) (w : World)
    (hbusy : ∀ k, w.line k ≠ none) :
    ∃ r, cw_rfid_read_once (N + 2) buffer N wait w = some r ∧
      (r.ret = N ∨ r.ret = -1 ∨ r.ret = -2) ∧ r.serial.ticks = w.ticks + 1 := by
  obtain ⟨line, clock, stack, p, c, t⟩ := w
  simp only at hbusy
  simp only [cw_rfid_read_once, millis]
  cases hl : line 0 with
  | none => exact absurd hl (hbusy 0)
  | some x =>
    rw [loop, if_pos (by simp), loop_body_start N wait _ 0 0 x buffer line _ stack p c (t + 1) hl]
    by_cases hx : x = 0x0A
    · rw [if_pos hx]
      obtain ⟨r, h1, h2, h3⟩ := loop_busy_collect N wait (clock 0 % ULONG_MOD) N 0 (by omega) x
        buffer (fun k => line (k + 1)) (fun k => clock (k + 1)) stack (p + 1) (c + 1) (t + 1)
        (fun k => hbusy (k + 1))
      refine ⟨r, h1, ?_, h3⟩
      rcases h2 with h2 | h2
      · exact Or.inl h2
      · exact Or.inr (Or.inl h2)
    · rw [if_neg hx]
      exact ⟨_, rfl, Or.inr (Or.inr rfl), rfl⟩

theorem feed_map_some_ne_none (filler : Int) :
    ∀ (bytes : List Int) (k : Nat), feed (bytes.map some) (fun _ => some filler) k ≠ none := by
  intro bytes
  induction bytes with
  | nil => intro k h; cases h
  | cons x xs ih =>
    intro k
    cases k with
    | zero => intro h; cases h
    | succ k => exact ih k

theorem busy_line (bytes : List Int) (filler : Int) (clock : Nat → Nat) (junk : Int) :
    ∀ k, (World.busy bytes filler clock junk).line k ≠ none :=
  feed_map_some_ne_none filler bytes

/-- The bound `bytes_read ≤ id_len` holds at the top of every pass. -/
theorem locals_at_bound (N wait sa : Nat) :
    ∀ (k : Nat) (s s' : Locals), locals_at N wait sa k s = some s' → s.bytes_read ≤ N →
      s'.bytes_read ≤ N := by
  intro k
  induction k with
  | zero =>
    intro s s' h hb
    simp only [locals_at, Option.some.injEq] at h
    subst h; exact hb
  | succ k ih =>
    intro s s' h hb
    have hp := loop_body_polls N wait sa s
    by_cases hg : s.bytes_read < N + 1
    · cases hbody : loop_body N wait sa s with
      | next s1 =>
        rw [hbody] at hp
        simp only [locals_at, hg, hbody, if_true] at h
        exact ih s1 s' h (hp.2 hb)
      | brk s1 => simp [locals_at, hg, hbody] at h
      | ret code s1 => simp [locals_at, hg, hbody] at h
    · simp [locals_at, hg] at h

/-- The loop from its start is the loop from the top of any pass it gets to. -/
theorem loop_of_locals_at (N wait sa : Nat) :
    ∀ (k : Nat) (s s' : Locals), locals_at N wait sa k s = some s' →
      ∀ fuel, loop N wait sa (k + fuel) s = loop N wait sa fuel s' := by
  intro k
  induction k with
  | zero =>
    intro s s' h fuel
    simp only [locals_at, Option.some.injEq] at h
    subst h
    rw [Nat.zero_add]
  | succ k ih =>
    intro s s' h fuel
    by_cases hg : s.bytes_read < N + 1
    · cases hbody : loop_body N wait sa s with
      | next s1 =>
        simp only [locals_at, hg, hbody, if_true] at h
        have e : k + 1 + fuel = (k + fuel) + 1 := by omega
        rw [e, loop, if_pos hg, hbody]
        exact ih s1 s' h fuel
      | brk s1 => simp [locals_at, hg, hbody] at h
      | ret code s1 => simp [locals_at, hg, hbody] at h
    · simp [locals_at, hg] at h

/-- A reading that returned `id_len` took a whole frame off the line and stored
its payload. -/
theorem read_once_success_trace (fuel : Nat) (buffer : Buffer) (N wait : Nat) (w : World)
    (r : Outcome) (h : cw_rfid_read_once fuel buffer N wait w = some r) (hr : r.ret = N) :
    ∃ (pre : List (Option Int)) (ps : List Int), ps.length = N ∧
      delivered (polled w r.serial) = frame ps ∧ r.buffer = Buffer.store buffer 0 ps ∧
      polled w r.serial = pre ++ [some 0x0D] := by
  obtain ⟨_, _, _, hv⟩ := read_once_trace fuel buffer N wait w r h
  rcases hv with ⟨_, h2, _⟩ | ⟨_, pre, ps, x, h2, h3, h4, h5, h6⟩ | ⟨_, h2, _⟩
  · omega
  · have hx : x = 0x0D := by
      by_contra hc
      rw [if_neg hc] at h4
      omega
    subst hx
    simp only [Bool.false_eq_true, if_false] at h2
    exact ⟨pre, ps, by omega, h2, h5, h6⟩
  · omega

/-- A reading returns `-1` exactly when its polls delivered the start byte, `id_len`
bytes and a byte other than `0x0D`. -/
theorem read_once_minus_one_iff (fuel : Nat) (buffer : Buffer) (N wait : Nat) (w : World)
    (r : Outcome) (h : cw_rfid_read_once fuel buffer N wait w = some r) :
    r.ret = -1 ↔ BadStop N (polled w r.serial) := by
  obtain ⟨_, _, _, hv⟩ := read_once_trace fuel buffer N wait w r h
  constructor
  · intro hr
    rcases hv with ⟨_, h2, _⟩ | ⟨_, pre, ps, x, h2, h3, h4, h5, h6⟩ | ⟨_, h2, _⟩
    · omega
    · have hx : x ≠ 0x0D := by
        intro hc
        rw [if_pos hc] at h4
        omega
      simp only [Bool.false_eq_true, if_false] at h2
      exact ⟨ps, x, h2, by omega, hx⟩
    · omega
  · rintro ⟨ps', x', hd, hlen, hx'⟩
    rcases hv with ⟨_, _, _, _, pre, x, _, h6, _⟩ | ⟨_, pre, ps, x, h2, h3, h4, h5, h6⟩ |
      ⟨_, _, _, _, h5⟩
    · rw [hd] at h6
      simp at h6
    · simp only [Bool.false_eq_true, if_false] at h2
      rw [hd] at h2
      simp only [List.cons.injEq, true_and] at h2
      obtain ⟨_, hx⟩ := List.append_inj' h2 rfl
      simp only [List.cons.injEq, and_true] at hx
      subst hx
      rw [h4, if_neg hx']
    · rw [hd] at h5
      simp at h5
      omega

/-- A reading whose polls delivered a whole frame returned `id_len` and stored
the payload. -/
theorem read_once_of_frame (fuel : Nat) (buffer : Buffer) (N wait : Nat) (w : World)
    (r : Outcome) (h : cw_rfid_read_once fuel buffer N wait w = some r) (payload : List Int)
    (hd : delivered (polled w r.serial) = frame payload) (hlen : payload.length = N) :
    r.ret = N ∧ r.buffer = Buffer.store buffer 0 payload := by
  obtain ⟨_, _, _, hv⟩ := read_once_trace fuel buffer N wait w r h
  rcases hv with ⟨_, _, _, _, pre, x, _, h6, _⟩ | ⟨_, pre, ps, x, h2, h3, h4, h5, h6⟩ |
    ⟨_, _, _, _, h5⟩
  · rw [hd] at h6
    simp [frame] at h6
  · simp only [Bool.false_eq_true, if_false] at h2
    rw [hd] at h2
    simp only [frame, List.cons_append, List.cons.injEq, true_and] at h2
    obtain ⟨hps, hx⟩ := List.append_inj' h2 rfl
    simp only [List.cons.injEq, and_true] at hx
    subst hx
    subst hps
    rw [h4, if_pos rfl]
    exact ⟨rfl, h5⟩
  · rw [hd] at h5
    simp [frame] at h5
    omega

/-- The bytes a reading takes off the line, by the code it returns. -/
theorem read_once_consumed (fuel : Nat) (buffer : Buffer) (N wait : Nat) (w : World)
    (r : Outcome) (h : cw_rfid_read_once fuel buffer N wait w = some r) :
    r.serial.consumed ≤ w.consumed + (N + 2) ∧
    (r.ret = -2 → r.serial.consumed = w.consumed + 1) ∧
    (r.ret = N ∨ r.ret = -1 → r.serial.consumed = w.consumed + (N + 2)) ∧
    (r.ret = -3 → r.serial.consumed ≤ w.consumed + (N + 1)) := by
  obtain ⟨_, _, hc, hv⟩ := read_once_trace fuel buffer N wait w r h
  rcases hv with ⟨_, h2, _, _, pre, x, _, h6, _⟩ | ⟨_, pre, ps, x, h2, h3, h4, h5, h6⟩ |
    ⟨_, h2, _, _, h5⟩
  · rw [h6] at hc
    simp only [List.length_cons, List.length_nil] at hc
    refine ⟨by omega, fun _ => hc, fun h' => ?_, fun h' => ?_⟩ <;> omega
  · simp only [Bool.false_eq_true, if_false] at h2
    rw [h2] at hc
    simp only [List.length_cons, List.length_append, List.length_nil] at hc
    have hne2 : r.ret ≠ -2 := by rw [h4]; split <;> omega
    have hne3 : r.ret ≠ -3 := by rw [h4]; split <;> omega
    refine ⟨by omega, fun h' => absurd h' hne2, fun _ => by omega, fun h' => absurd h' hne3⟩
  · simp only [Bool.false_eq_true, if_false, Nat.add_zero] at h5
    refine ⟨by omega, fun h' => ?_, fun h' => ?_, fun _ => by omega⟩ <;> omega

/-- A first reading that fails ends `cw_rfid_read` with its code. -/
theorem read_first_of_failure (fuel N wait : Nat) (buffer : Buffer) (w : World) (r1 : Outcome)
    (h1 : cw_rfid_read_once fuel (alloca w).1 N wait (millis (alloca (alloca w).2).2).2 =
      some r1) (hne : r1.ret ≠ N) :
    cw_rfid_read_first fuel buffer N wait w =
      some (Phase.done ⟨r1.ret, buffer, r1.serial, r1.exit⟩) := by
  have h1' : cw_rfid_read_once fuel (w.stack 0) N wait
      ⟨w.line, fun k => w.clock (k + 1), fun k => w.stack (k + 1 + 1), w.polls, w.consumed,
        w.ticks + 1⟩ = some r1 := h1
  have hph := read_first_eq fuel buffer N wait w
  rw [h1'] at hph
  simp only at hph
  rw [if_pos (fun heq => hne heq.symm)] at hph
  exact hph

/-- The second half of `cw_rfid_read` once its reading has returned. -/
theorem read_second_eq (fuel : Nat) (buffer b1 b2 : Buffer) (N nw : Nat) (w' : World)
    (r2 : Outcome) (h2 : cw_rfid_read_once fuel b2 N nw w' = some r2) :
    cw_rfid_read_second fuel buffer b1 b2 N nw w' =
      if r2.ret ≠ N then some ⟨r2.ret, buffer, r2.serial, r2.exit⟩
      else if memcmp_zero b1 r2.buffer N then
        some ⟨0, memcpy buffer b1 N, r2.serial, Exit.returned⟩
      else some ⟨-1, buffer, r2.serial, Exit.returned⟩ := by
  unfold cw_rfid_read_second
  rw [h2]
  simp only
  by_cases hne : r2.ret = N
  · simp [hne]
  · have hne' : ¬ (N : Int) = r2.ret := fun heq => hne heq.symm
    simp [hne, hne']

theorem polled_first (w : World) (w1 : World) :
    polled (millis (alloca (alloca w).2).2).2 w1 = polled w w1 := rfl

theorem polled_millis (w : World) (w1 : World) : polled w (millis w1).2 = polled w w1 := rfl

theorem polled_from_millis (w : World) (w1 : World) : polled (millis w).2 w1 = polled w w1 := rfl

theorem frame_inj (p q : List Int) (h : frame p = frame q) : p = q := by
  simp only [frame, List.cons_append, List.cons.injEq, true_and] at h
  exact (List.append_inj' h rfl).1

/-- Two payloads that are not equal differ at some position. -/
theorem differ_at (p q : List Int) (h : p ≠ q) : ∃ i : Nat, p[i]? ≠ q[i]? := by
  by_contra hc
  exact h (List.ext_getElem? fun n => by
    by_contra hn
    exact hc ⟨n, hn⟩)

/-- What `cw_rfid_read` returns once both readings have succeeded. -/
theorem read_of_two_successes (fuel N wait : Nat) (buffer : Buffer) (w : World)
    (b1 b2 : Buffer) (nw : Nat) (w' : World) (r2 : Outcome)
    (hph : cw_rfid_read_first fuel buffer N wait w = some (Phase.again b1 b2 nw w'))
    (h2 : cw_rfid_read_once fuel b2 N nw w' = some r2) (hr2 : r2.ret = N) :
    ∃ p1 p2 : List Int, p1.length = N ∧ p2.length = N ∧
      delivered (polled w w') = frame p1 ∧ delivered (polled w' r2.serial) = frame p2 ∧
      b1 = Buffer.store (w.stack 0) 0 p1 ∧
      cw_rfid_read fuel buffer N wait w =
        if p1 = p2 then some ⟨0, memcpy buffer b1 N, r2.serial, Exit.returned⟩
        else some ⟨-1, buffer, r2.serial, Exit.returned⟩ := by
  obtain ⟨r1, h1, hr1, hb1, hb2, hw'⟩ := read_first_again_inv fuel buffer N wait w b1 b2 nw w' hph
  obtain ⟨_, p1, hl1, hd1, hs1, _⟩ := read_once_success_trace fuel _ N wait _ r1 h1 hr1
  obtain ⟨_, p2, hl2, hd2, hs2, _⟩ := read_once_success_trace fuel _ N nw _ r2 h2 hr2
  rw [polled_first] at hd1
  refine ⟨p1, p2, hl1, hl2, by rw [hw', polled_millis]; exact hd1, hd2, by rw [hb1, hs1]; rfl, ?_⟩
  rw [read_eq_of_again fuel buffer N wait w b1 b2 nw w' hph,
    read_second_eq fuel buffer b1 b2 N nw w' r2 h2, if_neg (fun hc => hc hr2)]
  have hb1' : b1 = Buffer.store (w.stack 0) 0 p1 := by rw [hb1, hs1]; rfl
  rw [hs2]
  by_cases hp : p1 = p2
  · have hm : memcmp_zero b1 (Buffer.store b2 0 p2) N = true := by
      rw [hb1']
      exact (store_eq_iff p1 p2 _ _ N hl1 hl2).2 hp
    rw [if_pos hm, if_pos hp]
  · have hm : ¬ memcmp_zero b1 (Buffer.store b2 0 p2) N = true := by
      rw [hb1']
      exact fun hc => hp ((store_eq_iff p1 p2 _ _ N hl1 hl2).1 hc)
    rw [if_neg hm, if_neg hp]

/-- With a deadline set, a line that stays silent and no clock reading above the
deadline as the code computes it, the loop never leaves. -/
theorem loop_silent_never (N wait sa : Nat) (stack : Nat → Buffer) (hw : wait ≠ 0) :
    ∀ (fuel : Nat) (clock : Nat → Nat) (sf : Bool) (br : Nat) (v : Int) (b : Buffer)
      (p c t : Nat), br ≤ N → (∀ i, ¬ clock i % ULONG_MOD > uadd sa wait) →
      loop N wait sa fuel ⟨sf, br, v, b, ⟨fun _ => none, clock, stack, p, c, t⟩⟩ = none := by
  intro fuel
  induction fuel with
  | zero => intros; rfl
  | succ n ih =>
    intro clock sf br v b p c t hbr hnever
    rw [loop, if_pos (by simp; omega),
      loop_body_empty_wait N wait sa sf br v b (fun _ => none) clock stack p c t rfl hw,
      if_neg (hnever 0)]
    exact ih (fun k => clock (k + 1)) sf br v b (p + 1) c (t + 1) hbr
      (fun i => hnever (i + 1))

/-- When `started_at + wait` is the largest `unsigned long`, no reading is above
it: on a silent line `cw_rfid_read_once` does not return. -/
theorem read_once_silent_never (fuel : Nat) (buffer : Buffer) (N wait : Nat) (w : World)
    (hw : wait ≠ 0) (hsilent : ∀ k, w.line k = none)
    (hmax : uadd (w.reading 0) wait = ULONG_MOD - 1) :
    cw_rfid_read_once fuel buffer N wait w = none := by
  obtain ⟨line, clock, stack, p, c, t⟩ := w
  have hline : line = fun _ => none := funext hsilent
  subst hline
  simp only [World.reading] at hmax
  simp only [cw_rfid_read_once, millis]
  refine loop_silent_never N wait _ stack hw fuel _ false 0 0 buffer p c (t + 1) (by omega) ?_
  intro i
  rw [hmax]
  have : clock (i + 1) % ULONG_MOD < ULONG_MOD := Nat.mod_lt _ (by decide)
  omega

/-- The timeout where the deadline sum does not wrap around: with `D ≠ 0`, on a
line on which no byte is ever waiting, once some later clock reading is above the
start reading plus `D` (a sum of natural numbers, so below `2 ^ 32`),
`cw_rfid_read_once` returns `-3`, having taken no byte off the line and left the
buffer as it was. -/
theorem read_once_silent_timeout (N D : Nat) (buffer : Buffer) (w : World) (hD : D ≠ 0)
    (hsilent : ∀ k, w.line k = none)
    (hclock : ∃ k, w.reading 0 + D < w.reading (k + 1)) :
    ∃ fuel, ∀ fuel', fuel ≤ fuel' →
      ∃ r, cw_rfid_read_once fuel' buffer N D w = some r ∧ r.ret = -3 ∧
        r.serial.consumed = w.consumed ∧ r.buffer = buffer := by
  obtain ⟨line, clock, stack, p, c, t⟩ := w
  simp only [World.reading] at hsilent hclock
  have hline : line = fun _ => none := funext hsilent
  subst hline
  have hex : ∃ k, clock (k + 1) % ULONG_MOD > uadd (clock 0 % ULONG_MOD) D := by
    obtain ⟨k, hk⟩ := hclock
    refine ⟨k, ?_⟩
    have hlt : clock (k + 1) % ULONG_MOD < ULONG_MOD := Nat.mod_lt _ (by decide)
    have : uadd (clock 0 % ULONG_MOD) D = clock 0 % ULONG_MOD + D := by
      unfold uadd
      exact Nat.mod_eq_of_lt (by omega)
    omega
  classical
  let j := Nat.find hex
  have hfire : clock (j + 1) % ULONG_MOD > uadd (clock 0 % ULONG_MOD) D := Nat.find_spec hex
  have hquiet : ∀ i, i < j → ¬ clock (i + 1) % ULONG_MOD > uadd (clock 0 % ULONG_MOD) D :=
    fun i hi => Nat.find_min hex hi
  refine ⟨j + 1, fun fuel' hf => ?_⟩
  have := loop_silent_timeout N D (clock 0 % ULONG_MOD) stack hD j (fun k => clock (k + 1)) false
    0 0 buffer p c (t + 1) (by omega) hquiet hfire fuel' hf
  refine ⟨⟨-3, buffer, ⟨fun _ => none, fun k => clock (k + j + 1 + 1), stack, p + j + 1, c,
    t + 1 + j + 1⟩, Exit.returned⟩, ?_, rfl, rfl, rfl⟩
  simp only [cw_rfid_read_once, millis]
  exact this

/-- A silent line, a clock that advances 10 ms per reading, a deadline of 25 ms:
the call returns `-3`. -/
theorem read_once_silent_timeout_witness :
    (25 : Nat) ≠ 0 ∧ (∀ k, (World.start [] (fun k => 10 * k) 0).line k = none) ∧
    (∃ k, (World.start [] (fun k => 10 * k) 0).reading 0 + 25 <
      (World.start [] (fun k => 10 * k) 0).reading (k + 1)) ∧
    ∃ fuel, ∀ fuel', fuel ≤ fuel' →
      ∃ r, cw_rfid_read_once fuel' (Buffer.const 7) 4 25 (World.start [] (fun k => 10 * k) 0) =
          some r ∧ r.ret = -3 ∧
        r.serial.consumed = (World.start [] (fun k => 10 * k) 0).consumed ∧
        r.buffer = Buffer.const 7 :=
  ⟨by decide, fun _ => rfl, ⟨2, by decide⟩,
    read_once_silent_timeout 4 25 (Buffer.const 7) (World.start [] (fun k => 10 * k) 0)
      (by decide) (fun _ => rfl) ⟨2, by decide⟩⟩

/-! ## The claims -/

/-- Claim C1. On a stream that delivers `0x0A`, the bytes of `payload` (whatever
their values) and `0x0D`, with finitely many empty polls anywhere in between,
`cw_rfid_read_once` called with `wait = 0` returns `payload.length` as soon as it
is given as many loop passes as the script has polls, and the buffer then holds
the payload, in order, in its first `payload.length` places. -/
theorem read_once_frame_success (payload : List Int) (script : List (Option Int))
    (rest : Nat → Option Int) (buffer : Buffer) (w : World)
    (hline : w.line = feed script rest) (hscript : delivered script = frame payload) :
    ∀ fuel, script.length ≤ fuel →
      ∃ r, cw_rfid_read_once fuel buffer payload.length 0 w = some r ∧
        r.ret = payload.length ∧
        ∀ (i : Nat) (h : i < payload.length), r.buffer i = payload.get ⟨i, h⟩ := by
  obtain ⟨line, clock, stack, p, c, t⟩ := w
  simp only at hline
  subst hline
  have hd : delivered script = 0x0A :: (payload ++ 0x0D :: []) := hscript
  obtain ⟨s', k, _, h2, _, h4⟩ :=
    read_once_framed payload.length 0 rest clock stack script payload 0x0D [] buffer p c t hd rfl
      (Or.inl rfl)
  intro fuel hf
  refine ⟨_, h4 fuel (by omega), by simp, ?_⟩
  intro i h
  have := store_get payload buffer 0 i h
  simpa using this

/-- Instance of C1: payload `0x0A, 0x0D, 7` with two empty polls on the way. -/
theorem read_once_frame_success_witness :
    (World.start [none, some 0x0A, some 0x0A, none, some 0x0D, some 7, some 0x0D]
        (fun k => k) 99).line =
      feed [none, some 0x0A, some 0x0A, none, some 0x0D, some 7, some 0x0D] (fun _ => none) ∧
    delivered [none, some 0x0A, some 0x0A, none, some 0x0D, some 7, some 0x0D] =
      frame [0x0A, 0x0D, 7] ∧
    ∃ r, cw_rfid_read_once 7 (Buffer.const 5) 3 0
        (World.start [none, some 0x0A, some 0x0A, none, some 0x0D, some 7, some 0x0D]
          (fun k => k) 99) = some r ∧
      r.ret = 3 ∧
      ∀ (i : Nat) (h : i < 3), r.buffer i = [(0x0A : Int), 0x0D, 7].get ⟨i, h⟩ :=
  ⟨rfl, by decide,
    read_once_frame_success [0x0A, 0x0D, 7]
      [none, some 0x0A, some 0x0A, none, some 0x0D, some 7, some 0x0D] (fun _ => none)
      (Buffer.const 5) _ rfl (by decide) 7 (by decide)⟩

/-- Claim C2. On a stream that delivers the frame `0x0A, payload, 0x0D` twice in a
row (empty polls allowed anywhere in between), `cw_rfid_read` called with
`wait = 0` returns `0` and the caller's buffer then holds the payload in its first
`payload.length` places. -/
theorem read_same_frame_twice (payload : List Int) (script : List (Option Int))
    (rest : Nat → Option Int) (buffer : Buffer) (w : World)
    (hline : w.line = feed script rest)
    (hscript : delivered script = frame payload ++ frame payload) :
    ∀ fuel, script.length ≤ fuel →
      ∃ r, cw_rfid_read fuel buffer payload.length 0 w = some r ∧ r.ret = 0 ∧
        ∀ (i : Nat) (h : i < payload.length), r.buffer i = payload.get ⟨i, h⟩ := by
  obtain ⟨line, clock, stack, p, c, t⟩ := w
  simp only at hline
  subst hline
  have hd : delivered script = frame payload ++ (frame payload ++ []) := by
    rw [hscript]; simp
  obtain ⟨s', k, _, _, h3⟩ :=
    read_two_frames payload.length rest clock stack script payload payload [] buffer p c t hd
      rfl rfl
  intro fuel hf
  refine ⟨_, h3 fuel hf, by simp, ?_⟩
  intro i h
  have := store_get payload (stack 0) 0 i h
  simp only [Nat.zero_add] at this
  simp [memcpy, h, this]

/-- Instance of C2: the frame of `1, 0x0D` twice, an empty poll between the two. -/
theorem read_same_frame_twice_witness :
    (World.start [some 0x0A, some 1, some 0x0D, some 0x0D, none, some 0x0A, some 1, some 0x0D,
        some 0x0D] (fun k => k) 99).line =
      feed [some 0x0A, some 1, some 0x0D, some 0x0D, none, some 0x0A, some 1, some 0x0D,
        some 0x0D] (fun _ => none) ∧
    delivered [some 0x0A, some 1, some 0x0D, some 0x0D, none, some 0x0A, some 1, some 0x0D,
        some 0x0D] = frame [1, 0x0D] ++ frame [1, 0x0D] ∧
    ∃ r, cw_rfid_read 9 (Buffer.const 5) 2 0
        (World.start [some 0x0A, some 1, some 0x0D, some 0x0D, none, some 0x0A, some 1,
          some 0x0D, some 0x0D] (fun k => k) 99) = some r ∧ r.ret = 0 ∧
      ∀ (i : Nat) (h : i < 2), r.buffer i = [(1 : Int), 0x0D].get ⟨i, h⟩ :=
  ⟨rfl, by decide,
    read_same_frame_twice [1, 0x0D]
      [some 0x0A, some 1, some 0x0D, some 0x0D, none, some 0x0A, some 1, some 0x0D, some 0x0D]
      (fun _ => none) (Buffer.const 5) _ rfl (by decide) 9 (by decide)⟩

/-- Claim C3, where the code departs from it.  The stream delivers `0x00` and
then a well-formed frame; `cw_rfid_read_once`, called with `id_len = 2` and
`wait = 0`, takes the `break` on the first byte and returns `-2`, not `-1`,
however many loop passes it is allowed. -/
theorem read_once_wrong_start_returns_minus_two :
    ∀ fuel : Nat,
      (cw_rfid_read_once (fuel + 1) (Buffer.const 0) 2 0
        (World.start [some 0x00, some 0x0A, some 1, some 2, some 0x0D] (fun k => k) 0)).map
          Outcome.ret = some (-2) := by
  intro fuel
  rw [read_once_wrong_start 2 0 (Buffer.const 0) _ 0x00 rfl (by decide) fuel]
  rfl

/-- Claim C4. On a stream that delivers `0x0A`, the `payload.length` bytes of
`payload` and then a byte `x` other than `0x0D`, `cw_rfid_read_once` returns `-1`,
whatever follows `x`: for every `wait` when a byte is waiting at each poll, and
with empty polls in between when `wait = 0`. -/
theorem read_once_wrong_stop (payload : List Int) (x : Int) (more : List Int)
    (script : List (Option Int)) (rest : Nat → Option Int) (buffer : Buffer) (wait : Nat)
    (w : World) (hx : x ≠ 0x0D) (hline : w.line = feed script rest)
    (hscript : delivered script = 0x0A :: (payload ++ x :: more))
    (hw : wait = 0 ∨ ∀ e ∈ script, e ≠ none) :
    ∀ fuel, script.length ≤ fuel →
      ∃ r, cw_rfid_read_once fuel buffer payload.length wait w = some r ∧ r.ret = -1 := by
  obtain ⟨line, clock, stack, p, c, t⟩ := w
  simp only at hline
  subst hline
  obtain ⟨s', k, _, h2, _, h4⟩ :=
    read_once_framed payload.length wait rest clock stack script payload x more buffer p c t
      hscript rfl hw
  intro fuel hf
  exact ⟨_, h4 fuel (by omega), by simp [hx]⟩

/-- Instance of C4: two payload bytes, then `0x0A` where `0x0D` is due, a deadline
of 5 ms long past at every clock reading. -/
theorem read_once_wrong_stop_witness :
    (0x0A : Int) ≠ 0x0D ∧
    (World.start [some 0x0A, some 1, some 2, some 0x0A, some 0x0D] (fun k => 1000 * k) 0).line =
      feed [some 0x0A, some 1, some 2, some 0x0A, some 0x0D] (fun _ => none) ∧
    delivered [some 0x0A, some 1, some 2, some 0x0A, some 0x0D] =
      0x0A :: ([1, 2] ++ 0x0A :: [0x0D]) ∧
    ((5 : Nat) = 0 ∨ ∀ e ∈ [some (0x0A : Int), some 1, some 2, some 0x0A, some 0x0D], e ≠ none) ∧
    ∃ r, cw_rfid_read_once 5 (Buffer.const 0) 2 5
        (World.start [some 0x0A, some 1, some 2, some 0x0A, some 0x0D] (fun k => 1000 * k) 0) =
          some r ∧ r.ret = -1 :=
  ⟨by decide, rfl, by decide, Or.inr (by decide),
    read_once_wrong_stop [1, 2] 0x0A [0x0D] [some 0x0A, some 1, some 2, some 0x0A, some 0x0D]
      (fun _ => none) (Buffer.const 0) 5 _ (by decide) rfl (by decide) (Or.inr (by decide)) 5
      (by decide)⟩

/-- Claim C5. On a stream that delivers the frame of `p1` and then the frame of
`p2`, two different payloads of the same length, `cw_rfid_read` called with
`wait = 0` returns `-1`. -/
theorem read_mismatch (p1 p2 : List Int) (script : List (Option Int))
    (rest : Nat → Option Int) (buffer : Buffer) (w : World)
    (hlen : p2.length = p1.length) (hne : p1 ≠ p2) (hline : w.line = feed script rest)
    (hscript : delivered script = frame p1 ++ frame p2) :
    ∀ fuel, script.length ≤ fuel →
      ∃ r, cw_rfid_read fuel buffer p1.length 0 w = some r ∧ r.ret = -1 := by
  obtain ⟨line, clock, stack, p, c, t⟩ := w
  simp only at hline
  subst hline
  have hd : delivered script = frame p1 ++ (frame p2 ++ []) := by
    rw [hscript]; simp
  obtain ⟨s', k, _, _, h3⟩ :=
    read_two_frames p1.length rest clock stack script p1 p2 [] buffer p c t hd rfl hlen
  intro fuel hf
  exact ⟨_, h3 fuel hf, by simp [hne]⟩

/-- Instance of C5: payloads `1, 2` and `1, 3`. -/
theorem read_mismatch_witness :
    [(1 : Int), 3].length = [(1 : Int), 2].length ∧ [(1 : Int), 2] ≠ [1, 3] ∧
    (World.start [some 0x0A, some 1, some 2, some 0x0D, some 0x0A, some 1, some 3, some 0x0D]
        (fun k => k) 99).line =
      feed [some 0x0A, some 1, some 2, some 0x0D, some 0x0A, some 1, some 3, some 0x0D]
        (fun _ => none) ∧
    delivered [some 0x0A, some 1, some 2, some 0x0D, some 0x0A, some 1, some 3, some 0x0D] =
      frame [1, 2] ++ frame [1, 3] ∧
    ∃ r, cw_rfid_read 8 (Buffer.const 5) 2 0
        (World.start [some 0x0A, some 1, some 2, some 0x0D, some 0x0A, some 1, some 3,
          some 0x0D] (fun k => k) 99) = some r ∧ r.ret = -1 :=
  ⟨rfl, by decide, rfl, by decide,
    read_mismatch [1, 2] [1, 3]
      [some 0x0A, some 1, some 2, some 0x0D, some 0x0A, some 1, some 3, some 0x0D]
      (fun _ => none) (Buffer.const 5) _ rfl (by decide) rfl (by decide) 8 (by decide)⟩

/-- Claim C6, where the code departs from it.  `id_len = 2`, `wait = 100`; the
line is silent and the clock shows `2^32 - 101` at the start of the call and one
millisecond more at each later reading, wrapping around at `2^32`.  The sum
`started_at + wait` is `2^32 - 1`, the largest `unsigned long`, and no reading is
above it: the clock reads 101 ms past the start at the 101st reading, and further
on ever after, yet `cw_rfid_read_once` has not returned `-3`, nor returned at
all, after any number of polls. -/
theorem read_once_never_times_out :
    ∀ fuel : Nat,
      cw_rfid_read_once fuel (Buffer.const 0) 2 100
        (World.start [] (fun k => 4294967195 + k) 0) = none ∧
      (∀ k, (World.start [] (fun k => 4294967195 + k) 0).line k = none) ∧
      usub ((World.start [] (fun k => 4294967195 + k) 0).reading 101)
        ((World.start [] (fun k => 4294967195 + k) 0).reading 0) = 101 ∧
      uadd ((World.start [] (fun k => 4294967195 + k) 0).reading 0) 100 = 4294967295 := by
  intro fuel
  exact ⟨read_once_silent_never fuel (Buffer.const 0) 2 100 _ (by decide) (fun _ => rfl)
    (by decide), fun _ => rfl, by decide, by decide⟩

/-- Claim C7. With `wait = 0` the timeout is off: whatever the stream and the
clock, neither `cw_rfid_read_once` nor `cw_rfid_read` returns `-3`; and on a
stream that never has a byte waiting `cw_rfid_read_once` has not returned after
any number of polls. -/
theorem no_deadline_no_timeout :
    (∀ (fuel : Nat) (buffer : Buffer) (N : Nat) (w : World),
      (cw_rfid_read_once fuel buffer N 0 w).map Outcome.ret ≠ some (-3)) ∧
    (∀ (fuel : Nat) (buffer : Buffer) (N : Nat) (w : World),
      (cw_rfid_read fuel buffer N 0 w).map Outcome.ret ≠ some (-3)) ∧
    (∀ (fuel : Nat) (buffer : Buffer) (N : Nat) (w : World),
      (∀ k, w.line k = none) → cw_rfid_read_once fuel buffer N 0 w = none) := by
  refine ⟨?_, ?_, ?_⟩
  · intro fuel buffer N w h
    cases hr : cw_rfid_read_once fuel buffer N 0 w with
    | none => rw [hr] at h; cases h
    | some r =>
      rw [hr] at h
      simp only [Option.map_some', Option.some.injEq] at h
      rcases read_once_ret_code fuel buffer N 0 w r hr with ⟨h1, _⟩ | ⟨h1, _⟩ | ⟨h1, _⟩ | ⟨_, h2, _⟩
      · omega
      · omega
      · omega
      · exact h2 rfl
  · intro fuel buffer N w h
    cases hr : cw_rfid_read fuel buffer N 0 w with
    | none => rw [hr] at h; cases h
    | some r =>
      rw [hr] at h
      simp only [Option.map_some', Option.some.injEq] at h
      rcases read_ret_code fuel buffer N 0 w r hr with h1 | h1 | h1 | ⟨_, h2⟩
      · omega
      · omega
      · omega
      · exact h2 rfl
  · intro fuel buffer N w hsilent
    obtain ⟨line, clock, stack, p, c, t⟩ := w
    have hline : line = fun _ => none := funext hsilent
    subst hline
    simp only [cw_rfid_read_once, millis]
    exact loop_silent_nowait N _ _ stack fuel false 0 0 buffer p c (t + 1) (by omega)

/-- Instance of C7: on a silent line a call with `id_len = 2` and `wait = 0` has
not returned after 50 polls. -/
theorem no_deadline_no_timeout_witness :
    (∀ k, (World.start [] (fun k => 1000 * k) 0).line k = none) ∧
    cw_rfid_read_once 50 (Buffer.const 0) 2 0 (World.start [] (fun k => 1000 * k) 0) = none :=
  ⟨fun _ => rfl,
    no_deadline_no_timeout.2.2 50 (Buffer.const 0) 2 (World.start [] (fun k => 1000 * k) 0)
      (fun _ => rfl)⟩

/-- Claim C8, where the code departs from it.  The stream delivers the byte
`0x00` first; `cw_rfid_read`, called with `id_len = 10` and `wait = 10000`,
returns the `-2` of its first reading. -/
theorem read_returns_minus_two :
    ∀ fuel : Nat,
      (cw_rfid_read (fuel + 1) (Buffer.const 0) 10 10000
        (World.start [some 0x00] (fun k => k) 0)).map Outcome.ret = some (-2) := by
  intro fuel
  rw [read_wrong_start 10 10000 (Buffer.const 0) _ 0x00 rfl (by decide) fuel]
  rfl

/-- Claim C9, where the code departs from it.  `id_len = 0`, `wait = 2`; the stream
delivers `0x0A, 0x0D` and then stays silent; the clock shows `0, 1, 2, ...` at
the successive `millis()` calls.  The first reading succeeds and the elapsed time
equals `wait`, so `new_wait` is `0` and passes the test of line 81: the second
reading is made with `wait = 0`, which means no deadline, and `cw_rfid_read` has
not returned after any number of polls. -/
theorem read_second_attempt_unlimited :
    ∀ fuel : Nat,
      (cw_rfid_read_first (fuel + 2) (Buffer.const 0) 0 2
        (World.start [some 0x0A, some 0x0D] (fun k => k) 0)).map Phase.second_wait =
          some (some 0) ∧
      cw_rfid_read (fuel + 2) (Buffer.const 0) 0 2
        (World.start [some 0x0A, some 0x0D] (fun k => k) 0) = none := by
  intro fuel
  obtain ⟨b1, b2, w', h, hs⟩ : ∃ b1 b2 w',
      cw_rfid_read_first 2 (Buffer.const 0) 0 2
        (World.start [some 0x0A, some 0x0D] (fun k => k) 0) = some (Phase.again b1 b2 0 w') ∧
      ∀ k, w'.line k = none := ⟨_, _, _, rfl, fun _ => rfl⟩
  have h' := read_first_mono 2 _ 0 2 _ _ h (fuel + 2) (by omega)
  refine ⟨by rw [h']; rfl, ?_⟩
  rw [read_eq_of_again _ _ _ _ _ _ _ _ _ h']
  unfold cw_rfid_read_second
  rw [read_once_silent_nowait (fuel + 2) b2 0 w' hs]

/-- Claim C10. With a deadline `D ≠ 0`, once the first reading of `cw_rfid_read` has
succeeded, the call returns `-3` on the spot, with no further poll and no further
byte taken, when the time elapsed since its start (the clock reading after the
first reading minus the reading at the start, as `unsigned long`) is strictly
greater than `D`; when it is not, the second reading is made (with `D` minus the
elapsed time as its `wait`), and whatever `cw_rfid_read` then returns comes after
at least one more poll. -/
theorem read_gate_after_first_success (fuel N D : Nat) (buffer : Buffer) (w : World)
    (hD : D ≠ 0) (hDlt : D < ULONG_MOD)
    (hfirst : (cw_rfid_read_once fuel (alloca w).1 N D
      (millis (alloca (alloca w).2).2).2).map Outcome.ret = some (N : Int)) :
    ∃ r1, cw_rfid_read_once fuel (alloca w).1 N D (millis (alloca (alloca w).2).2).2 = some r1 ∧
      (D < usub (r1.serial.reading 0) (w.reading 0) →
        cw_rfid_read fuel buffer N D w =
          some ⟨-3, buffer,
            ⟨r1.serial.line, fun k => r1.serial.clock (k + 1), r1.serial.stack, r1.serial.polls,
              r1.serial.consumed, r1.serial.ticks + 1⟩, Exit.returned⟩) ∧
      (¬ D < usub (r1.serial.reading 0) (w.reading 0) →
        cw_rfid_read_first fuel buffer N D w =
          some (Phase.again r1.buffer (w.stack 1)
            (D - usub (r1.serial.reading 0) (w.reading 0)) (millis r1.serial).2) ∧
        cw_rfid_read fuel buffer N D w =
          cw_rfid_read_second fuel buffer r1.buffer (w.stack 1) N
            (D - usub (r1.serial.reading 0) (w.reading 0)) (millis r1.serial).2 ∧
        ∀ r, cw_rfid_read fuel buffer N D w = some r → r1.serial.polls < r.serial.polls) := by
  cases h1 : cw_rfid_read_once fuel (alloca w).1 N D (millis (alloca (alloca w).2).2).2 with
  | none => rw [h1] at hfirst; cases hfirst
  | some r1 =>
    rw [h1] at hfirst
    simp only [Option.map_some', Option.some.injEq] at hfirst
    have h1' : cw_rfid_read_once fuel (w.stack 0) N D
        ⟨w.line, fun k => w.clock (k + 1), fun k => w.stack (k + 1 + 1), w.polls, w.consumed,
          w.ticks + 1⟩ = some r1 := h1
    have hph := read_first_eq fuel buffer N D w
    rw [h1'] at hph
    simp only [ne_eq, hfirst, not_true_eq_false, if_false, hD, not_false_eq_true, true_and]
      at hph
    have hgate := usub_gt_iff D (usub (r1.serial.reading 0) (w.reading 0)) hDlt (usub_lt _ _)
    refine ⟨r1, rfl, ?_, ?_⟩
    · intro hlt
      rw [if_pos (hgate.2 hlt)] at hph
      exact read_eq_of_done fuel buffer N D w _ hph
    · intro hle
      rw [if_neg (fun hc => hle (hgate.1 hc)),
        usub_of_le D _ hDlt (Nat.le_of_not_lt hle)] at hph
      refine ⟨hph, read_eq_of_again fuel buffer N D w _ _ _ _ hph, ?_⟩
      intro r hr
      rw [read_eq_of_again fuel buffer N D w _ _ _ _ hph] at hr
      exact read_second_polls_lt fuel buffer _ _ N _ (millis r1.serial).2 r hr

/-- Instance of C10: `id_len = 0`, `wait = 5`, a clock that advances 10 ms per
reading, so that 20 ms have elapsed after the first reading. -/
theorem read_gate_after_first_success_witness :
    (5 : Nat) ≠ 0 ∧ 5 < ULONG_MOD ∧
    (cw_rfid_read_once 2 (alloca (World.start [some 0x0A, some 0x0D] (fun k => 10 * k) 0)).1 0 5
      (millis (alloca (alloca (World.start [some 0x0A, some 0x0D] (fun k => 10 * k) 0)).2).2).2).map
        Outcome.ret = some ((0 : Nat) : Int) ∧
    ∃ r1, cw_rfid_read_once 2
        (alloca (World.start [some 0x0A, some 0x0D] (fun k => 10 * k) 0)).1 0 5
        (millis (alloca (alloca (World.start [some 0x0A, some 0x0D] (fun k => 10 * k) 0)).2).2).2 =
          some r1 ∧
      (5 < usub (r1.serial.reading 0)
          ((World.start [some 0x0A, some 0x0D] (fun k => 10 * k) 0).reading 0) →
        cw_rfid_read 2 (Buffer.const 0) 0 5
            (World.start [some 0x0A, some 0x0D] (fun k => 10 * k) 0) =
          some ⟨-3, Buffer.const 0,
            ⟨r1.serial.line, fun k => r1.serial.clock (k + 1), r1.serial.stack, r1.serial.polls,
              r1.serial.consumed, r1.serial.ticks + 1⟩, Exit.returned⟩) ∧
      (¬ 5 < usub (r1.serial.reading 0)
          ((World.start [some 0x0A, some 0x0D] (fun k => 10 * k) 0).reading 0) →
        cw_rfid_read_first 2 (Buffer.const 0) 0 5
            (World.start [some 0x0A, some 0x0D] (fun k => 10 * k) 0) =
          some (Phase.again r1.buffer
            ((World.start [some 0x0A, some 0x0D] (fun k => 10 * k) 0).stack 1)
            (5 - usub (r1.serial.reading 0)
              ((World.start [some 0x0A, some 0x0D] (fun k => 10 * k) 0).reading 0))
            (millis r1.serial).2) ∧
        cw_rfid_read 2 (Buffer.const 0) 0 5
            (World.start [some 0x0A, some 0x0D] (fun k => 10 * k) 0) =
          cw_rfid_read_second 2 (Buffer.const 0) r1.buffer
            ((World.start [some 0x0A, some 0x0D] (fun k => 10 * k) 0).stack 1) 0
            (5 - usub (r1.serial.reading 0)
              ((World.start [some 0x0A, some 0x0D] (fun k => 10 * k) 0).reading 0))
            (millis r1.serial).2 ∧
        ∀ r, cw_rfid_read 2 (Buffer.const 0) 0 5
            (World.start [some 0x0A, some 0x0D] (fun k => 10 * k) 0) = some r →
          r1.serial.polls < r.serial.polls) :=
  ⟨by decide, by decide, by decide,
    read_gate_after_first_success 2 0 5 (Buffer.const 0)
      (World.start [some 0x0A, some 0x0D] (fun k => 10 * k) 0) (by decide) (by decide)
      (by decide)⟩

/-- Claim C11. When the first `cw_rfid_read_once` inside `cw_rfid_read` returns a
code `r1.ret` other than `id_len`, `cw_rfid_read` returns that code, in the world
the first reading left (no second reading, no further clock reading) and with the
caller's buffer as it was; and when a second reading is made and returns a code
other than `id_len`, `cw_rfid_read` returns that code. -/
theorem read_propagates_failure (fuel N wait : Nat) (buffer : Buffer) (w : World) :
    (∀ r1, cw_rfid_read_once fuel (alloca w).1 N wait (millis (alloca (alloca w).2).2).2 =
        some r1 → r1.ret ≠ N →
      cw_rfid_read_first fuel buffer N wait w =
        some (Phase.done ⟨r1.ret, buffer, r1.serial, r1.exit⟩) ∧
      cw_rfid_read fuel buffer N wait w = some ⟨r1.ret, buffer, r1.serial, r1.exit⟩) ∧
    (∀ b1 b2 nw w' r2,
      cw_rfid_read_first fuel buffer N wait w = some (Phase.again b1 b2 nw w') →
      cw_rfid_read_once fuel b2 N nw w' = some r2 → r2.ret ≠ N →
      cw_rfid_read fuel buffer N wait w = some ⟨r2.ret, buffer, r2.serial, r2.exit⟩) := by
  constructor
  · intro r1 h1 hne
    have h1' : cw_rfid_read_once fuel (w.stack 0) N wait
        ⟨w.line, fun k => w.clock (k + 1), fun k => w.stack (k + 1 + 1), w.polls, w.consumed,
          w.ticks + 1⟩ = some r1 := h1
    have hph := read_first_eq fuel buffer N wait w
    rw [h1'] at hph
    simp only at hph
    rw [if_pos (fun heq => hne heq.symm)] at hph
    exact ⟨hph, read_eq_of_done fuel buffer N wait w _ hph⟩
  · intro b1 b2 nw w' r2 hph h2 hne
    rw [read_eq_of_again fuel buffer N wait w b1 b2 nw w' hph]
    unfold cw_rfid_read_second
    rw [h2]
    simp only
    rw [if_pos (fun heq => hne heq.symm)]

/-- Instance of C11: the first byte on the line is `0x00`, the first reading
returns `-2` and `cw_rfid_read` returns `-2` in the world that reading left. -/
theorem read_propagates_failure_witness :
    cw_rfid_read_once 1 (alloca (World.start [some 0x00] (fun k => k) 0)).1 2 0
        (millis (alloca (alloca (World.start [some 0x00] (fun k => k) 0)).2).2).2 =
      some ⟨-2, fun _ => 0, ⟨fun _ => none, fun k => k + 1 + 1, fun _ _ => 0, 1, 1, 2⟩,
        Exit.broke⟩ ∧
    (-2 : Int) ≠ (2 : Nat) ∧
    cw_rfid_read 1 (Buffer.const 7) 2 0 (World.start [some 0x00] (fun k => k) 0) =
      some ⟨-2, Buffer.const 7, ⟨fun _ => none, fun k => k + 1 + 1, fun _ _ => 0, 1, 1, 2⟩,
        Exit.broke⟩ :=
  ⟨rfl, by decide,
    ((read_propagates_failure 1 2 0 (Buffer.const 7)
      (World.start [some 0x00] (fun k => k) 0)).1 _ rfl (by decide)).2⟩

/-- Claim C12, where the code departs from it.  `id_len = 2`, `wait = 100`; the
line is silent and the clock shows `2^32 - 10` at the start of the call and one
millisecond more at each later reading.  The sum `started_at + wait` wraps around
to `90`, so the first empty poll, one millisecond into a wait of 100, already
finds the clock above the deadline and `cw_rfid_read_once` returns `-3`. -/
theorem read_once_times_out_early :
    ∀ fuel : Nat,
      (cw_rfid_read_once (fuel + 1) (Buffer.const 0) 2 100
        (World.start [] (fun k => 4294967286 + k) 0)).map Outcome.ret = some (-3) ∧
      (cw_rfid_read_once (fuel + 1) (Buffer.const 0) 2 100
        (World.start [] (fun k => 4294967286 + k) 0)).map (fun r => r.serial.ticks) = some 2 ∧
      usub ((World.start [] (fun k => 4294967286 + k) 0).reading 1)
        ((World.start [] (fun k => 4294967286 + k) 0).reading 0) = 1 ∧
      uadd ((World.start [] (fun k => 4294967286 + k) 0).reading 0) 100 = 90 := by
  intro fuel
  obtain ⟨r, h, h1, h2⟩ : ∃ r, cw_rfid_read_once 1 (Buffer.const 0) 2 100
      (World.start [] (fun k => 4294967286 + k) 0) = some r ∧ r.ret = -3 ∧ r.serial.ticks = 2 :=
    ⟨_, rfl, by decide, rfl⟩
  rw [read_once_mono 1 _ 2 100 _ r h (fuel + 1) (by omega)]
  exact ⟨by rw [Option.map_some', h1], by rw [Option.map_some', h2], by decide, by decide⟩

/-- Claim C13. On a stream where a byte is waiting at every poll, two calls of
`cw_rfid_read_once` that differ only in `wait` and in the clock return the same
code and leave the same buffer; and a well-formed frame is accepted with `id_len`
whatever `wait` and the clock readings are, past the deadline or not. -/
theorem read_once_ignores_deadline (fuel N : Nat) (buffer : Buffer) (w w' : World)
    (wait wait' : Nat) (hline : w'.line = w.line) (hbusy : ∀ k, w.line k ≠ none) :
    (cw_rfid_read_once fuel buffer N wait w).map (fun r => (r.ret, r.buffer)) =
      (cw_rfid_read_once fuel buffer N wait' w').map (fun r => (r.ret, r.buffer)) ∧
    ∀ (payload : List Int) (rest : Nat → Option Int), payload.length = N →
      w.line = feed ((frame payload).map some) rest →
      ∀ fuel', N + 2 ≤ fuel' →
        ∃ r, cw_rfid_read_once fuel' buffer N wait w = some r ∧ r.ret = N ∧
          ∀ (i : Nat) (h : i < payload.length), r.buffer i = payload.get ⟨i, h⟩ := by
  obtain ⟨line, clock, stack, p, c, t⟩ := w
  obtain ⟨line', clock', stack', p', c', t'⟩ := w'
  simp only at hline hbusy
  subst line'
  refine ⟨?_, ?_⟩
  · simp only [cw_rfid_read_once, millis]
    exact loop_busy_view N fuel false 0 buffer line hbusy wait _ 0 _ stack p c _ wait' _ 0 _
      stack' p' c' _
  · intro payload rest hlen hframe fuel' hf
    simp only at hframe
    subst hframe
    have hd : delivered ((frame payload).map some) = 0x0A :: (payload ++ 0x0D :: []) :=
      delivered_map_some _
    have hsome : ∀ e ∈ (frame payload).map some, e ≠ none := by
      intro e he
      obtain ⟨x, _, hx⟩ := List.mem_map.1 he
      rw [← hx]; simp
    obtain ⟨s', k, _, h2, _, h4⟩ :=
      read_once_framed N wait rest clock stack ((frame payload).map some) payload 0x0D [] buffer
        p c t hd hlen (Or.inr hsome)
    have hk : k ≤ N + 2 := by
      have : ((frame payload).map some).length = N + 2 := by simp [frame, hlen]
      omega
    refine ⟨_, h4 fuel' (by omega), by simp, ?_⟩
    intro i h
    have := store_get payload buffer 0 i h
    simpa using this

/-- Instance of C13: the frame of `1, 2` on a line that always has a byte; one
call without deadline, one with a deadline of 5 ms on a clock a thousand seconds
further at each reading. -/
theorem read_once_ignores_deadline_witness :
    (World.busy (frame [1, 2]) 0 (fun k => 1000000 * (k + 1)) 0).line =
      (World.busy (frame [1, 2]) 0 (fun _ => 0) 0).line ∧
    (∀ k, (World.busy (frame [1, 2]) 0 (fun _ => 0) 0).line k ≠ none) ∧
    (cw_rfid_read_once 4 (Buffer.const 9) 2 0 (World.busy (frame [1, 2]) 0 (fun _ => 0) 0)).map
        (fun r => (r.ret, r.buffer)) =
      (cw_rfid_read_once 4 (Buffer.const 9) 2 5
        (World.busy (frame [1, 2]) 0 (fun k => 1000000 * (k + 1)) 0)).map
          (fun r => (r.ret, r.buffer)) :=
  ⟨rfl, busy_line _ _ _ _,
    (read_once_ignores_deadline 4 2 (Buffer.const 9) (World.busy (frame [1, 2]) 0 (fun _ => 0) 0)
      (World.busy (frame [1, 2]) 0 (fun k => 1000000 * (k + 1)) 0) 0 5 rfl
      (busy_line _ _ _ _)).1⟩

/-- Claim C14. Through every pass of the loop of `cw_rfid_read_once` the bound
`0 ≤ bytes_read ≤ id_len` holds, so the loop condition `bytes_read < id_len + 1`
is true at the top of every pass; a call that returns has left the loop by a
`return` inside it or by the `break`, never by the condition; the `-2` after the
loop is returned exactly when the `break` was taken, and the `break` is taken only
on a first byte other than `0x0A`. -/
theorem read_once_guard_never_fails (N wait : Nat) (buffer : Buffer) (w : World) :
    (∀ (k : Nat) (s : Locals),
      locals_at N wait (millis w).1 k ⟨false, 0, 0, buffer, (millis w).2⟩ = some s →
        (0 : Int) ≤ s.bytes_read ∧ s.bytes_read ≤ N ∧ s.bytes_read < N + 1) ∧
    (∀ (fuel : Nat) (r : Outcome), cw_rfid_read_once fuel buffer N wait w = some r →
      r.exit ≠ Exit.guard ∧ (r.ret = -2 ↔ r.exit = Exit.broke) ∧
      (r.exit = Exit.broke →
        ∃ (pre : List (Option Int)) (x : Int), x ≠ 0x0A ∧ polled w r.serial = pre ++ [some x] ∧
          delivered (polled w r.serial) = [x])) := by
  constructor
  · intro k s h
    have := locals_at_bound N wait _ k _ s h (Nat.zero_le _)
    simp only at this
    exact ⟨Int.ofNat_nonneg _, this, by omega⟩
  · intro fuel r h
    obtain ⟨_, _, _, hv⟩ := read_once_trace fuel buffer N wait w r h
    rcases hv with ⟨h1, h2, _, _, pre, x, h5, h6, h7⟩ | ⟨h1, pre, ps, x, _, _, h4, _⟩ |
      ⟨h1, h2, _⟩
    · refine ⟨by rw [h1]; decide, ⟨fun _ => h1, fun _ => h2⟩, fun _ => ⟨pre, x, h5, h7, h6⟩⟩
    · have hne : r.ret ≠ -2 := by rw [h4]; split <;> omega
      refine ⟨by rw [h1]; decide, ⟨fun h' => absurd h' hne, fun h' => ?_⟩, fun h' => ?_⟩
      · rw [h1] at h'; cases h'
      · rw [h1] at h'; cases h'
    · have hne : r.ret ≠ -2 := by rw [h2]; decide
      refine ⟨by rw [h1]; decide, ⟨fun h' => absurd h' hne, fun h' => ?_⟩, fun h' => ?_⟩
      · rw [h1] at h'; cases h'
      · rw [h1] at h'; cases h'

/-- Instance of C14: after the start byte and one payload byte of a two-byte tag,
`bytes_read` is `1`. -/
theorem read_once_guard_never_fails_witness :
    locals_at 2 0 (millis (World.start [some 0x0A, some 7] (fun k => k) 0)).1 2
        ⟨false, 0, 0, Buffer.const 0, (millis (World.start [some 0x0A, some 7] (fun k => k) 0)).2⟩ =
      some ⟨true, 1, 7, (Buffer.const 0).set 0 7,
        ⟨fun _ => none, fun k => k + 1, fun _ _ => 0, 2, 2, 1⟩⟩ ∧
    ((0 : Int) ≤ ((1 : Nat) : Int) ∧ 1 ≤ 2 ∧ 1 < 2 + 1) :=
  ⟨rfl,
    (read_once_guard_never_fails 2 0 (Buffer.const 0)
      (World.start [some 0x0A, some 7] (fun k => k) 0)).1 2 _ rfl⟩

/-- Claim C15 does not hold: there is no stream with a byte waiting at every poll
on which `cw_rfid_read_once`, called with a deadline set, fails to return. -/
theorem no_starving_stream :
    ¬ ∃ (N wait : Nat) (buffer : Buffer) (w : World), wait ≠ 0 ∧ (∀ k, w.line k ≠ none) ∧
      ∀ fuel, cw_rfid_read_once fuel buffer N wait w = none := by
  rintro ⟨N, wait, buffer, w, _, hbusy, hnone⟩
  obtain ⟨r, h, _⟩ := read_once_busy_returns N wait buffer w hbusy
  rw [hnone (N + 2)] at h
  cases h

/-- Claim C15 as amended. On every stream with a byte waiting at every poll,
`cw_rfid_read_once`, with a deadline set or not, never looks at the clock after
its start and is never timed out, however far the clock has run past the
deadline; yet it does return, within `id_len + 2` passes, with `id_len`, `-1` or
`-2`. -/
theorem busy_stream_returns_untimed (N wait : Nat) (buffer : Buffer) (w : World)
    (hbusy : ∀ k, w.line k ≠ none) :
    ∃ r, cw_rfid_read_once (N + 2) buffer N wait w = some r ∧
      (r.ret = N ∨ r.ret = -1 ∨ r.ret = -2) ∧ r.ret ≠ -3 ∧ r.serial.ticks = w.ticks + 1 := by
  obtain ⟨r, h1, h2, h3⟩ := read_once_busy_returns N wait buffer w hbusy
  refine ⟨r, h1, h2, ?_, h3⟩
  rcases h2 with h | h | h <;> omega

/-- Instance of the amended C15: a line that delivers `0x0A` for ever, a deadline
of 5 ms, a clock a thousand seconds further at each reading. -/
theorem busy_stream_returns_untimed_witness :
    (∀ k, (World.busy [] 0x0A (fun k => 1000000 * (k + 1)) 0).line k ≠ none) ∧
    ∃ r, cw_rfid_read_once (2 + 2) (Buffer.const 0) 2 5
        (World.busy [] 0x0A (fun k => 1000000 * (k + 1)) 0) = some r ∧
      (r.ret = (2 : Nat) ∨ r.ret = -1 ∨ r.ret = -2) ∧ r.ret ≠ -3 ∧
      r.serial.ticks = (World.busy [] 0x0A (fun k => 1000000 * (k + 1)) 0).ticks + 1 :=
  ⟨busy_line _ _ _ _,
    busy_stream_returns_untimed 2 5 (Buffer.const 0)
      (World.busy [] 0x0A (fun k => 1000000 * (k + 1)) 0) (busy_line _ _ _ _)⟩

/-- Claim C16. A call of `cw_rfid_read` that returns, returns `-1` if and only if
(a) its first reading, or the second one when it is made, took the start byte and
`id_len` bytes off the line and then a byte other than `0x0D`, or (b) both
readings took a whole frame and the two payloads differ at some position; `-1`
is the code in both cases. -/
theorem read_minus_one_iff (fuel N wait : Nat) (buffer : Buffer) (w : World) (r : Outcome)
    (h : cw_rfid_read fuel buffer N wait w = some r) :
    r.ret = -1 ↔
      (∃ r1, cw_rfid_read_once fuel (alloca w).1 N wait (millis (alloca (alloca w).2).2).2 =
          some r1 ∧ BadStop N (polled w r1.serial)) ∨
      (∃ b1 b2 nw w' r2,
        cw_rfid_read_first fuel buffer N wait w = some (Phase.again b1 b2 nw w') ∧
        cw_rfid_read_once fuel b2 N nw w' = some r2 ∧ BadStop N (polled w' r2.serial)) ∨
      (∃ b1 b2 nw w' r2 p1 p2,
        cw_rfid_read_first fuel buffer N wait w = some (Phase.again b1 b2 nw w') ∧
        cw_rfid_read_once fuel b2 N nw w' = some r2 ∧
        p1.length = N ∧ p2.length = N ∧ delivered (polled w w') = frame p1 ∧
        delivered (polled w' r2.serial) = frame p2 ∧ ∃ i : Nat, p1[i]? ≠ p2[i]?) := by
  constructor
  · intro hr
    cases hf : cw_rfid_read_first fuel buffer N wait w with
    | none => simp [cw_rfid_read, hf] at h
    | some ph =>
      cases ph with
      | done r' =>
        rw [read_eq_of_done fuel buffer N wait w r' hf] at h
        simp only [Option.some.injEq] at h
        subst h
        obtain ⟨r1, h1, hcase⟩ := read_first_done_inv fuel buffer N wait w r' hf
        rcases hcase with ⟨_, he⟩ | ⟨_, _, he⟩
        · rw [he] at hr
          simp only at hr
          have := (read_once_minus_one_iff fuel _ N wait _ r1 h1).1 hr
          rw [polled_first] at this
          exact Or.inl ⟨r1, h1, this⟩
        · rw [he] at hr
          simp at hr
      | again b1 b2 nw w' =>
        cases h2 : cw_rfid_read_once fuel b2 N nw w' with
        | none =>
          rw [read_eq_of_again fuel buffer N wait w b1 b2 nw w' hf] at h
          simp [cw_rfid_read_second, h2] at h
        | some r2 =>
          by_cases hr2 : r2.ret = N
          · obtain ⟨p1, p2, hl1, hl2, hd1, hd2, _, hread⟩ :=
              read_of_two_successes fuel N wait buffer w b1 b2 nw w' r2 hf h2 hr2
            rw [h] at hread
            by_cases hp : p1 = p2
            · rw [if_pos hp] at hread
              simp only [Option.some.injEq] at hread
              rw [hread] at hr
              simp at hr
            · exact Or.inr (Or.inr ⟨b1, b2, nw, w', r2, p1, p2, rfl, h2, hl1, hl2, hd1, hd2,
                differ_at p1 p2 hp⟩)
          · rw [read_eq_of_again fuel buffer N wait w b1 b2 nw w' hf,
              read_second_eq fuel buffer b1 b2 N nw w' r2 h2, if_pos hr2] at h
            simp only [Option.some.injEq] at h
            subst h
            simp only at hr
            exact Or.inr (Or.inl ⟨b1, b2, nw, w', r2, rfl, h2,
              (read_once_minus_one_iff fuel _ N nw _ r2 h2).1 hr⟩)
  · rintro (⟨r1, h1, hbad⟩ | ⟨b1, b2, nw, w', r2, hf, h2, hbad⟩ |
      ⟨b1, b2, nw, w', r2, p1, p2, hf, h2, hl1, hl2, hd1, hd2, i, hi⟩)
    · rw [← polled_first] at hbad
      have hr1 := (read_once_minus_one_iff fuel _ N wait _ r1 h1).2 hbad
      have hne : r1.ret ≠ N := by omega
      rw [read_eq_of_done fuel buffer N wait w _
        (read_first_of_failure fuel N wait buffer w r1 h1 hne)] at h
      simp only [Option.some.injEq] at h
      subst h
      exact hr1
    · have hr2 := (read_once_minus_one_iff fuel _ N nw _ r2 h2).2 hbad
      have hne : r2.ret ≠ N := by omega
      rw [read_eq_of_again fuel buffer N wait w b1 b2 nw w' hf,
        read_second_eq fuel buffer b1 b2 N nw w' r2 h2, if_pos hne] at h
      simp only [Option.some.injEq] at h
      subst h
      exact hr2
    · have hr2 := (read_once_of_frame fuel _ N nw _ r2 h2 p2 hd2 hl2).1
      obtain ⟨q1, q2, _, _, he1, he2, _, hread⟩ :=
        read_of_two_successes fuel N wait buffer w b1 b2 nw w' r2 hf h2 hr2
      have e1 : q1 = p1 := frame_inj _ _ (he1.symm.trans hd1)
      have e2 : q2 = p2 := frame_inj _ _ (he2.symm.trans hd2)
      subst e1 e2
      have hp : q1 ≠ q2 := fun hc => hi (by rw [hc])
      rw [h, if_neg hp] at hread
      simp only [Option.some.injEq] at hread
      rw [hread]

/-- Instance of C16: a two-byte tag whose frame ends in `9` where `0x0D` is due;
`cw_rfid_read` returns `-1` from its first reading. -/
theorem read_minus_one_iff_witness :
    cw_rfid_read 4 (Buffer.const 7) 2 0
        (World.start [some 0x0A, some 1, some 2, some 9] (fun k => k) 0) =
      some ⟨-1, Buffer.const 7, ⟨fun _ => none, fun k => k + 1 + 1, fun _ _ => 0, 4, 4, 2⟩,
        Exit.returned⟩ ∧
    ((-1 : Int) = -1 ↔
      (∃ r1, cw_rfid_read_once 4
          (alloca (World.start [some 0x0A, some 1, some 2, some 9] (fun k => k) 0)).1 2 0
          (millis (alloca (alloca
            (World.start [some 0x0A, some 1, some 2, some 9] (fun k => k) 0)).2).2).2 = some r1 ∧
        BadStop 2 (polled (World.start [some 0x0A, some 1, some 2, some 9] (fun k => k) 0)
          r1.serial)) ∨
      (∃ b1 b2 nw w' r2,
        cw_rfid_read_first 4 (Buffer.const 7) 2 0
            (World.start [some 0x0A, some 1, some 2, some 9] (fun k => k) 0) =
          some (Phase.again b1 b2 nw w') ∧
        cw_rfid_read_once 4 b2 2 nw w' = some r2 ∧ BadStop 2 (polled w' r2.serial)) ∨
      (∃ b1 b2 nw w' r2 p1 p2,
        cw_rfid_read_first 4 (Buffer.const 7) 2 0
            (World.start [some 0x0A, some 1, some 2, some 9] (fun k => k) 0) =
          some (Phase.again b1 b2 nw w') ∧
        cw_rfid_read_once 4 b2 2 nw w' = some r2 ∧
        p1.length = 2 ∧ p2.length = 2 ∧
        delivered (polled (World.start [some 0x0A, some 1, some 2, some 9] (fun k => k) 0) w') =
          frame p1 ∧
        delivered (polled w' r2.serial) = frame p2 ∧ ∃ i : Nat, p1[i]? ≠ p2[i]?)) :=
  ⟨rfl,
    read_minus_one_iff 4 2 0 (Buffer.const 7)
      (World.start [some 0x0A, some 1, some 2, some 9] (fun k => k) 0) _ rfl⟩

/-- Claim C17. A call of `cw_rfid_read_once` that returns has taken at most
`id_len + 2` bytes off the line: exactly `1` when it returns `-2` (the wrong start
byte), exactly `id_len + 2` when it returns `id_len` or `-1`, at most `id_len + 1`
when it returns `-3`; after a success the last poll made is the one that took the
`0x0D`, and the line stands right behind it; and on a stream with a byte waiting
at every poll the call returns within `id_len + 2` passes. -/
theorem read_once_consumes_at_most (N wait : Nat) (buffer : Buffer) (w : World) :
    (∀ (fuel : Nat) (r : Outcome), cw_rfid_read_once fuel buffer N wait w = some r →
      r.serial.consumed ≤ w.consumed + (N + 2) ∧
      (r.ret = -2 → r.serial.consumed = w.consumed + 1) ∧
      (r.ret = N ∨ r.ret = -1 → r.serial.consumed = w.consumed + (N + 2)) ∧
      (r.ret = -3 → r.serial.consumed ≤ w.consumed + (N + 1)) ∧
      (r.ret = N → ∃ pre : List (Option Int), polled w r.serial = pre ++ [some 0x0D] ∧
        w.line = feed (pre ++ [some 0x0D]) r.serial.line)) ∧
    ((∀ k, w.line k ≠ none) → ∃ r, cw_rfid_read_once (N + 2) buffer N wait w = some r) := by
  constructor
  · intro fuel r h
    obtain ⟨h1, h2, h3, h4⟩ := read_once_consumed fuel buffer N wait w r h
    refine ⟨h1, h2, h3, h4, fun hr => ?_⟩
    obtain ⟨pre, _, _, _, _, hp⟩ := read_once_success_trace fuel buffer N wait w r h hr
    refine ⟨pre, hp, ?_⟩
    rw [← hp]
    exact (read_once_trace fuel buffer N wait w r h).1
  · intro hbusy
    obtain ⟨r, h, _⟩ := read_once_busy_returns N wait buffer w hbusy
    exact ⟨r, h⟩

/-- Instance of C17: a line that delivers `0x0A` for ever; the call for a two-byte
tag returns within four passes. -/
theorem read_once_consumes_at_most_witness :
    (∀ k, (World.busy [] 0x0A (fun k => k) 0).line k ≠ none) ∧
    ∃ r, cw_rfid_read_once (2 + 2) (Buffer.const 0) 2 5 (World.busy [] 0x0A (fun k => k) 0) =
      some r :=
  ⟨busy_line _ _ _ _,
    (read_once_consumes_at_most 2 5 (Buffer.const 0) (World.busy [] 0x0A (fun k => k) 0)).2
      (busy_line _ _ _ _)⟩

/-- Claim C18. A call of `cw_rfid_read` that returns a code other than `0` leaves
every element of the caller's buffer as it was; one that returns `0` has made two
readings that each took a whole frame with the same payload, has put that payload
in the first `id_len` elements of the caller's buffer and has left the elements
from `id_len` on as they were. -/
theorem read_writes_only_on_success (fuel N wait : Nat) (buffer : Buffer) (w : World)
    (r : Outcome) (h : cw_rfid_read fuel buffer N wait w = some r) :
    (r.ret ≠ 0 → r.buffer = buffer) ∧
    (r.ret = 0 →
      ∃ b1 b2 nw w' r2 payload,
        cw_rfid_read_first fuel buffer N wait w = some (Phase.again b1 b2 nw w') ∧
        cw_rfid_read_once fuel b2 N nw w' = some r2 ∧ payload.length = N ∧
        delivered (polled w w') = frame payload ∧
        delivered (polled w' r2.serial) = frame payload ∧
        (∀ (i : Nat) (hi : i < payload.length), r.buffer i = payload.get ⟨i, hi⟩) ∧
        ∀ i, N ≤ i → r.buffer i = buffer i) := by
  cases hf : cw_rfid_read_first fuel buffer N wait w with
  | none => simp [cw_rfid_read, hf] at h
  | some ph =>
    cases ph with
    | done r' =>
      rw [read_eq_of_done fuel buffer N wait w r' hf] at h
      simp only [Option.some.injEq] at h
      subst h
      obtain ⟨r1, h1, hcase⟩ := read_first_done_inv fuel buffer N wait w r' hf
      rcases hcase with ⟨hne, he⟩ | ⟨_, _, he⟩
      · have hc := read_once_ret_code fuel _ N wait _ r1 h1
        rw [he]
        refine ⟨fun _ => rfl, fun h0 => ?_⟩
        simp only at h0
        rcases hc with ⟨h2, _⟩ | ⟨h2, _⟩ | ⟨h2, _⟩ | ⟨h2, _⟩
        · exact absurd h2 hne
        · omega
        · omega
        · omega
      · rw [he]
        exact ⟨fun _ => rfl, fun h0 => by simp at h0⟩
    | again b1 b2 nw w' =>
      cases h2 : cw_rfid_read_once fuel b2 N nw w' with
      | none =>
        rw [read_eq_of_again fuel buffer N wait w b1 b2 nw w' hf] at h
        simp [cw_rfid_read_second, h2] at h
      | some r2 =>
        by_cases hr2 : r2.ret = N
        · obtain ⟨p1, p2, hl1, hl2, hd1, hd2, hb1, hread⟩ :=
            read_of_two_successes fuel N wait buffer w b1 b2 nw w' r2 hf h2 hr2
          rw [h] at hread
          by_cases hp : p1 = p2
          · subst hp
            rw [if_pos rfl] at hread
            simp only [Option.some.injEq] at hread
            rw [hread]
            refine ⟨fun hne => absurd rfl hne, fun _ => ?_⟩
            refine ⟨b1, b2, nw, w', r2, p1, rfl, h2, hl1, hd1, hd2, ?_, ?_⟩
            · intro i hi
              have := store_get p1 (w.stack 0) 0 i hi
              simp only [Nat.zero_add] at this
              simp only [memcpy]
              rw [if_pos (by omega), hb1, this]
            · intro i hi
              simp only [memcpy]
              rw [if_neg (by omega)]
          · rw [if_neg hp] at hread
            simp only [Option.some.injEq] at hread
            rw [hread]
            exact ⟨fun _ => rfl, fun h0 => by simp at h0⟩
        · rw [read_eq_of_again fuel buffer N wait w b1 b2 nw w' hf,
            read_second_eq fuel buffer b1 b2 N nw w' r2 h2, if_pos hr2] at h
          simp only [Option.some.injEq] at h
          subst h
          have hc := read_once_ret_code fuel _ N nw _ r2 h2
          refine ⟨fun _ => rfl, fun h0 => ?_⟩
          simp only at h0
          rcases hc with ⟨h3, _⟩ | ⟨h3, _⟩ | ⟨h3, _⟩ | ⟨h3, _⟩
          · exact absurd h3 hr2
          · omega
          · omega
          · omega

/-- Instance of C18: the same call as for C16, which returns `-1`; the caller's
buffer is as it was. -/
theorem read_writes_only_on_success_witness :
    cw_rfid_read 4 (Buffer.const 7) 2 0
        (World.start [some 0x0A, some 1, some 2, some 9] (fun k => k) 0) =
      some ⟨-1, Buffer.const 7, ⟨fun _ => none, fun k => k + 1 + 1, fun _ _ => 0, 4, 4, 2⟩,
        Exit.returned⟩ ∧
    (-1 : Int) ≠ 0 ∧
    (⟨-1, Buffer.const 7, ⟨fun _ => none, fun k => k + 1 + 1, fun _ _ => 0, 4, 4, 2⟩,
        Exit.returned⟩ : Outcome).buffer = Buffer.const 7 :=
  ⟨rfl, by decide,
    (read_writes_only_on_success 4 2 0 (Buffer.const 7)
      (World.start [some 0x0A, some 1, some 2, some 9] (fun k => k) 0) _ rfl).1 (by decide)⟩

end CWRFID
